import Mathlib

/-!
# Verification of the swiggy-ai-agent streaming chat client

Shallow embedding of the frontend chat-stream subsystem
(`frontend/src/components/ChatUI/hooks/chatStream/*`): the SSE frame
reader, the structured-data type-inference decoder, the embedded-card
parser, the reasoning-text normalizer, the tool-execution timeline
handlers, and the turn assembler of `useChatStream`.  JavaScript runtime
values are modelled by the inductive `JVal`; each embedded definition
mirrors the corresponding source function.
-/

namespace SwiggyChat

/-- A JavaScript runtime value, restricted to the shapes the chat-stream
code manipulates.  Numbers are modelled as exact decimals `m / 10^d`
(the event payloads in scope never use exponent notation or NaN). -/
inductive JVal where
  | undefined : JVal
  | null : JVal
  | bool (b : Bool) : JVal
  | num (m : Int) (d : Nat) : JVal
  | str (s : String) : JVal
  | arr (elems : List JVal) : JVal
  | obj (fields : List (String × JVal)) : JVal

/-- JavaScript truthiness (`undefined`, `null`, `false`, `0`, `""` are
falsy; every object and array is truthy). -/
def JVal.truthy : JVal → Bool
  | .undefined => false
  | .null => false
  | .bool b => b
  | .num m _ => m != 0
  | .str s => s != ""
  | .arr _ => true
  | .obj _ => true


/-- The JavaScript check that a value is not undefined. -/
def JVal.defined : JVal → Bool
  | .undefined => false
  | _ => true

/-- Property read `v[k]`: objects look the key up (first binding wins, as
in a JS object literal where we keep the final value of each key
distinct); any other receiver yields `undefined`.  The code paths
embedded here never read a property off `null`/`undefined` (they are
guarded by truthiness checks first), so the throwing cases are
unreachable. -/
def JVal.get (v : JVal) (k : String) : JVal :=
  match v with
  | .obj fs =>
    match fs.find? (fun p => p.1 == k) with
    | some p => p.2
    | none => .undefined
  | _ => .undefined

/-- Own-property check, as the decoder invokes hasOwnProperty, for the key sets used
by the decoder (plain data objects; array index/length properties are
not among the probed keys). -/
def JVal.hasOwn (v : JVal) (k : String) : Bool :=
  match v with
  | .obj fs => fs.any (fun p => p.1 == k)
  | _ => false

/-- Whether the typeof operator yields the string describing objects (true for objects, arrays and null). -/
def JVal.isObjectType : JVal → Bool
  | .obj _ => true
  | .arr _ => true
  | .null => true
  | _ => false

/-- Wrap a payload as `{ type: t, data: d }`. -/
def JVal.tagged (t : String) (d : JVal) : JVal :=
  .obj [("type", .str t), ("data", d)]

/-! ## Structured data decoder (`structuredDataProcessor.js`)

`detectStructuredData` is the heuristic type-inference decoder applied
to each `structured_data` event payload. -/

/-- Function detectStructuredData from source structuredDataProcessor.js lines
37-123, translated if-for-if.  The JS function returns `null` for a
falsy argument; the `catch` branch is unreachable here because property
reads in the model are total. -/
def detectStructuredData (data : JVal) : JVal :=
  if !data.truthy then .null
  else if (data.get "type").truthy && (data.get "data").truthy then data
  else if (data.get "verification_score").defined
       || (data.get "verification_status").defined
       || ((data.get "recommendation").defined
            && (data.get "flagged_issues").defined) then
    .tagged "image_verification_result" data
  else if ((data.get "workflow_id").truthy || (data.get "current_state").truthy)
       && ((data.get "current_stage").defined
            || ((data.get "stage").defined
                 && ((data.get "order_id").defined
                      || (data.get "reason_category").truthy))) then
    .tagged "refund_workflow_state" data
  else if (data.get "name").truthy
       && ((data.get "cuisine").truthy || (data.get "rating").truthy) then
    .tagged "restaurant" data
  else if (data.get "name").truthy
       && ((data.get "price").truthy || (data.get "description").truthy) then
    .tagged "food_item" data
  else if data.isObjectType then
    if (data.get "restaurant").truthy then
      .tagged "restaurant" (data.get "restaurant")
    else if (data.get "food_item").truthy then
      .tagged "food_item" (data.get "food_item")
    else if data.hasOwn "rating" || data.hasOwn "cuisine" then
      .tagged "restaurant" data
    else if data.hasOwn "price" then
      .tagged "food_item" data
    else data
  else data

/-! ### The spec's rule list, for comparison

The specification (§4.2) words the inference rules slightly differently
from the code; `detectStructuredDataSpec` follows the spec's words so the
two can be compared. -/

/-- Modelled from the spec: the §4.2 type-inference precedence as
worded there — the verification-result shape is "`verification_score`
or `verification_status` present", and the refund-workflow shape is
"`workflow_id`/`current_state` plus a stage/reason field"
(`current_stage`, `stage` or `reason_category`). -/
def detectStructuredDataSpec (data : JVal) : JVal :=
  if !data.truthy then .null
  else if (data.get "type").truthy && (data.get "data").truthy then data
  else if (data.get "verification_score").defined
       || (data.get "verification_status").defined then
    .tagged "image_verification_result" data
  else if ((data.get "workflow_id").defined
            || (data.get "current_state").defined)
       && ((data.get "current_stage").defined
            || (data.get "stage").defined
            || (data.get "reason_category").defined) then
    .tagged "refund_workflow_state" data
  else if (data.get "name").truthy
       && ((data.get "cuisine").truthy || (data.get "rating").truthy) then
    .tagged "restaurant" data
  else if (data.get "name").truthy
       && ((data.get "price").truthy || (data.get "description").truthy) then
    .tagged "food_item" data
  else if (data.get "restaurant").truthy then
    .tagged "restaurant" (data.get "restaurant")
  else if (data.get "food_item").truthy then
    .tagged "food_item" (data.get "food_item")
  else if data.hasOwn "rating" || data.hasOwn "cuisine" then
    .tagged "restaurant" data
  else if data.hasOwn "price" then
    .tagged "food_item" data
  else data

/-! The code rules, written out as named predicates, and the flat
first-match-wins chain built from them. -/

/-- Rule: explicit `type`+`data` envelope (code case 1). -/
def isEnvelopeShape (d : JVal) : Bool :=
  (d.get "type").truthy && (d.get "data").truthy

/-- Rule: image-verification result shape as implemented —
`verification_score` or `verification_status` defined, or both
`recommendation` and `flagged_issues` defined (code case 2). -/
def isVerificationShape (d : JVal) : Bool :=
  (d.get "verification_score").defined
    || (d.get "verification_status").defined
    || ((d.get "recommendation").defined
         && (d.get "flagged_issues").defined)

/-- Rule: refund-workflow shape as implemented — a truthy `workflow_id`
or `current_state`, together with `current_stage` defined, or `stage`
defined alongside `order_id` defined or a truthy `reason_category`
(code case 3). -/
def isRefundWorkflowShape (d : JVal) : Bool :=
  ((d.get "workflow_id").truthy || (d.get "current_state").truthy)
    && ((d.get "current_stage").defined
         || ((d.get "stage").defined
              && ((d.get "order_id").defined
                   || (d.get "reason_category").truthy)))

/-- Rule: restaurant shape — truthy `name` plus truthy `cuisine` or
`rating`. -/
def isRestaurantShape (d : JVal) : Bool :=
  (d.get "name").truthy && ((d.get "cuisine").truthy || (d.get "rating").truthy)

/-- Rule: food-item shape — truthy `name` plus truthy `price` or
`description`. -/
def isFoodItemShape (d : JVal) : Bool :=
  (d.get "name").truthy && ((d.get "price").truthy || (d.get "description").truthy)

/-- The decoder's rules as a flat ordered chain, first match winning,
falling through to the raw payload when nothing matches. -/
def detectChain (data : JVal) : JVal :=
  if !data.truthy then .null
  else if isEnvelopeShape data then data
  else if isVerificationShape data then .tagged "image_verification_result" data
  else if isRefundWorkflowShape data then .tagged "refund_workflow_state" data
  else if isRestaurantShape data then .tagged "restaurant" data
  else if isFoodItemShape data then .tagged "food_item" data
  else if (data.get "restaurant").truthy then
    .tagged "restaurant" (data.get "restaurant")
  else if (data.get "food_item").truthy then
    .tagged "food_item" (data.get "food_item")
  else if data.hasOwn "rating" || data.hasOwn "cuisine" then
    .tagged "restaurant" data
  else if data.hasOwn "price" then
    .tagged "food_item" data
  else data

/-- Scenario B payload: name Pizza Hut, rating 4.2. -/
def pizzaHutPayload : JVal :=
  .obj [("name", .str "Pizza Hut"), ("rating", .num 42 1)]

/-- A payload with only `recommendation` and `flagged_issues`: typed by
the implementation, untouched by the spec's rule list. -/
def recommendationPayload : JVal :=
  .obj [("recommendation", .str "approve"), ("flagged_issues", .arr [])]

/-! ## String utilities

The JavaScript code works over strings; the model works over `List Char`
(wrapped into `String` at the edges), with helpers mirroring the string
primitives the source uses. -/

/-- JavaScript whitespace, restricted to the ASCII characters that occur
in the event streams in scope (space, tab, newline, carriage return,
vertical tab, form feed). -/
def jsWs (c : Char) : Bool :=
  c = ' ' || c = '\t' || c = '\n' || c = '\r' || c = '\x0b' || c = '\x0c'

/-- JavaScript trim on character lists: drop whitespace from both
ends. -/
def trimList (cs : List Char) : List Char :=
  ((cs.dropWhile jsWs).reverse.dropWhile jsWs).reverse

/-- JavaScript trim on strings. -/
def jsTrim (s : String) : String :=
  String.mk (trimList s.data)

/-- Leftmost index at which `pat` occurs in `cs` (the indexOf search),
offset by `i`. -/
def findSubAux (pat : List Char) : List Char → Nat → Option Nat
  | cs, i =>
    if pat.isPrefixOf cs then some i
    else
      match cs with
      | [] => none
      | _ :: rest => findSubAux pat rest (i + 1)

/-- String.indexOf: leftmost occurrence index of `pat` in `cs`. -/
def findSub (cs pat : List Char) : Option Nat :=
  findSubAux pat cs 0

/-- String.includes. -/
def containsSub (cs pat : List Char) : Bool :=
  (findSub cs pat).isSome

/-- Fuel-bounded body of the global replacement scan; one unit of fuel
per character is sufficient. -/
def replaceSubAux (p : Char) (ps repl : List Char) : Nat → List Char → List Char
  | 0, cs => cs
  | _ + 1, [] => []
  | fuel + 1, c :: rest =>
    if (p :: ps).isPrefixOf (c :: rest) then
      repl ++ replaceSubAux p ps repl fuel (rest.drop ps.length)
    else
      c :: replaceSubAux p ps repl fuel rest

/-- Global, non-overlapping, left-to-right replacement of the literal
pattern `p :: ps` by `repl` (the replace-with-global-regex-of-a-literal
calls in the source); the replacement text is not rescanned. -/
def replaceSub (p : Char) (ps repl cs : List Char) : List Char :=
  replaceSubAux p ps repl (cs.length + 1) cs

/-- String.split on the newline character, keeping empty segments, as
the frame reader calls it. -/
def splitNLAux : List Char → List Char → List (List Char)
  | [], cur => [cur.reverse]
  | '\n' :: rest, cur => cur.reverse :: splitNLAux rest []
  | c :: rest, cur => splitNLAux rest (c :: cur)

/-- Split a chunk into lines at newlines. -/
def splitNL (cs : List Char) : List (List Char) :=
  splitNLAux cs []

/-- Collapse every maximal run of three or more newlines down to two
(the replace of three-plus newlines in the normalizer); `k` counts the
newlines emitted in the current run. -/
def collapseNLAux : List Char → Nat → List Char
  | [], _ => []
  | '\n' :: rest, k =>
    if k ≥ 2 then collapseNLAux rest (k + 1)
    else '\n' :: collapseNLAux rest (k + 1)
  | c :: rest, _ => c :: collapseNLAux rest 0

/-- Collapse runs of three or more newlines to exactly two. -/
def collapseNL (cs : List Char) : List Char :=
  collapseNLAux cs 0

/-! ## JSON parsing

The client calls the host JSON.parse in the frame reader and in the
embedded-card parser.  The model implements strict JSON directly:
objects, arrays, strings with the common escapes, decimal numbers
(exponent notation and unicode escapes do not occur in the payloads in
scope and are not modelled), booleans and null.  A fuel argument bounds
the recursion; one unit per character of input is always sufficient. -/

/-- Skip JSON whitespace. -/
def skipWs (cs : List Char) : List Char :=
  cs.dropWhile (fun c => c = ' ' || c = '\t' || c = '\n' || c = '\r')

/-- Numeric value of a digit run. -/
def digitsToNat (ds : List Char) : Nat :=
  ds.foldl (fun a c => a * 10 + (c.toNat - 48)) 0

/-- Parse the body of a JSON string after the opening quote, `acc`
holding the decoded characters in reverse. -/
def jparseStringAux : List Char → List Char → Option (String × List Char)
  | [], _ => none
  | '"' :: rest, acc => some (String.mk acc.reverse, rest)
  | '\\' :: e :: rest, acc =>
    if e = '"' then jparseStringAux rest ('"' :: acc)
    else if e = '\\' then jparseStringAux rest ('\\' :: acc)
    else if e = '/' then jparseStringAux rest ('/' :: acc)
    else if e = 'n' then jparseStringAux rest ('\n' :: acc)
    else if e = 't' then jparseStringAux rest ('\t' :: acc)
    else if e = 'r' then jparseStringAux rest ('\r' :: acc)
    else if e = 'b' then jparseStringAux rest ('\x08' :: acc)
    else if e = 'f' then jparseStringAux rest ('\x0c' :: acc)
    else none
  | ['\\'], _ => none
  | c :: rest, acc =>
    if c.toNat < 32 then none else jparseStringAux rest (c :: acc)

/-- Parse a JSON string body (after the opening quote). -/
def jparseString (cs : List Char) : Option (String × List Char) :=
  jparseStringAux cs []

/-- Parse the digits of a JSON number after the optional sign (strict:
no leading zeros, optional fraction). -/
def jparseNumAbs (neg : Bool) (cs1 : List Char) : Option (JVal × List Char) :=
  match cs1 with
  | [] => none
  | c :: _ =>
    if !c.isDigit then none
    else
      let intDigits := if c = '0' then ['0'] else cs1.takeWhile Char.isDigit
      let afterInt := cs1.drop intDigits.length
      if c = '0' && (afterInt.headD ' ').isDigit then none
      else
        match afterInt with
        | '.' :: fr =>
          let fracDigits := fr.takeWhile Char.isDigit
          if fracDigits.isEmpty then none
          else
            let rest := fr.drop fracDigits.length
            let m : Int := (digitsToNat (intDigits ++ fracDigits) : Int)
            some (.num (if neg then -m else m) fracDigits.length, rest)
        | _ =>
          let m : Int := (digitsToNat intDigits : Int)
          some (.num (if neg then -m else m) 0, afterInt)

/-- Parse a JSON number (strict: optional minus, no leading zeros,
optional fraction). -/
def jparseNumber (cs : List Char) : Option (JVal × List Char) :=
  match cs with
  | '-' :: rest => jparseNumAbs true rest
  | _ => jparseNumAbs false cs

/-- Parser mode: a top-level value, the member loop of an object, or
the item loop of an array (the latter two positioned right after the
opening token or a comma, carrying the members read so far). -/
inductive JPMode where
  | top : JPMode
  | objFields (acc : List (String × JVal)) : JPMode
  | arrItems (acc : List JVal) : JPMode

/-- The JSON parser; `fuel` bounds the recursion (the wrapper supplies
enough for any input). -/
def jparseGo : Nat → JPMode → List Char → Option (JVal × List Char)
  | 0, _, _ => none
  | fuel + 1, .top, cs =>
    (match skipWs cs with
     | [] => none
     | '\x7b' :: rest => jparseGo fuel (.objFields []) rest
     | '[' :: rest => jparseGo fuel (.arrItems []) rest
     | '"' :: rest =>
       (match jparseString rest with
        | some (s, r) => some (.str s, r)
        | none => none)
     | 't' :: rest =>
       if ['r', 'u', 'e'].isPrefixOf rest then some (.bool true, rest.drop 3) else none
     | 'f' :: rest =>
       if ['a', 'l', 's', 'e'].isPrefixOf rest then some (.bool false, rest.drop 4) else none
     | 'n' :: rest =>
       if ['u', 'l', 'l'].isPrefixOf rest then some (.null, rest.drop 3) else none
     | c :: rest =>
       if c = '-' || c.isDigit then jparseNumber (c :: rest) else none)
  | fuel + 1, .objFields acc, cs =>
    (match skipWs cs with
     | '\x7d' :: rest => if acc.isEmpty then some (.obj [], rest) else none
     | '"' :: rest =>
       (match jparseString rest with
        | some (k, r1) =>
          (match skipWs r1 with
           | ':' :: r2 =>
             (match jparseGo fuel .top r2 with
              | some (v, r3) =>
                (match skipWs r3 with
                 | ',' :: r4 => jparseGo fuel (.objFields (acc ++ [(k, v)])) r4
                 | '\x7d' :: r4 => some (.obj (acc ++ [(k, v)]), r4)
                 | _ => none)
              | none => none)
           | _ => none)
        | none => none)
     | _ => none)
  | fuel + 1, .arrItems acc, cs =>
    (match skipWs cs with
     | ']' :: rest => if acc.isEmpty then some (.arr [], rest) else none
     | _ =>
       (match jparseGo fuel .top cs with
        | some (v, r1) =>
          (match skipWs r1 with
           | ',' :: r2 => jparseGo fuel (.arrItems (acc ++ [v])) r2
           | ']' :: r2 => some (.arr (acc ++ [v]), r2)
           | _ => none)
        | none => none))

/-- Parse one JSON value. -/
def jparseVal (fuel : Nat) (cs : List Char) : Option (JVal × List Char) :=
  jparseGo fuel .top cs

/-- JSON.parse: parse a complete value, requiring the whole input to be
consumed. -/
def jsonParse (s : String) : Option JVal :=
  match jparseVal (2 * s.data.length + 2) s.data with
  | some (v, rest) => if skipWs rest = [] then some v else none
  | none => none

/-! ## JavaScript stringification

Template-literal interpolation stringifies interpolated values; the
model implements the cases the tool-message tables can hit. -/

/-- Decimal digit character. -/
def digitChar (n : Nat) : Char :=
  Char.ofNat (48 + n)

/-- Fuel-bounded digit accumulation, most significant first; fuel one
past the number is always sufficient. -/
def natDigitsAux : Nat → Nat → List Char → List Char
  | 0, _, acc => acc
  | fuel + 1, n, acc =>
    if n < 10 then digitChar n :: acc
    else natDigitsAux fuel (n / 10) (digitChar (n % 10) :: acc)

/-- Decimal digits of a natural number. -/
def natDigits (n : Nat) : List Char :=
  natDigitsAux (n + 1) n []

/-- Decimal string of a natural number. -/
def natStr (n : Nat) : String :=
  String.mk (natDigits n)

/-- JavaScript rendering of the modelled decimal `m / 10^d` (shortest
form: trailing fraction zeros dropped, as the host prints numbers). -/
def numToString (m : Int) (d : Nat) : String :=
  let a := m.natAbs
  let sign := if m < 0 then "-" else ""
  if d = 0 then sign ++ natStr a
  else
    let ip := a / 10 ^ d
    let fp := a % 10 ^ d
    let fds := natDigits fp
    let frac := List.replicate (d - fds.length) '0' ++ fds
    let fracTrimmed := (frac.reverse.dropWhile (fun c => c = '0')).reverse
    if fracTrimmed.isEmpty then sign ++ natStr ip
    else sign ++ natStr ip ++ "." ++ String.mk fracTrimmed

/-- Rendering of one array element inside a join: null and undefined
render empty, other scalars render as at top level; an array nested
inside an array is not stringified further (the payloads in scope never
nest arrays inside stringified arrays). -/
def jsToStringElem : JVal → String
  | .undefined => ""
  | .null => ""
  | .bool b => if b then "true" else "false"
  | .num m d => numToString m d
  | .str s => s
  | .arr _ => ""
  | .obj _ => "[object Object]"

/-- JavaScript string conversion of a value (template-literal
interpolation); array elements join with commas. -/
def jsToString : JVal → String
  | .undefined => "undefined"
  | .null => "null"
  | .bool b => if b then "true" else "false"
  | .num m d => numToString m d
  | .str s => s
  | .arr xs => String.intercalate "," (xs.map jsToStringElem)
  | .obj _ => "[object Object]"

/-! ## Tool message tables (`toolMessages.js`) -/

/-- Word characters, the character class the tool-name regexes use. -/
def isWordChar (c : Char) : Bool :=
  c.isAlpha || c.isDigit || c = '_'

/-- Function formatToolName from toolMessages.js lines 115-121:
underscores to spaces, a space before each capital, lowercase the
result, uppercase a leading word character. -/
def formatToolName (toolName : String) : String :=
  let s1 := toolName.data.map (fun c => if c = '_' then ' ' else c)
  let s2 := s1.flatMap (fun c => if c.isUpper then [' ', c] else [c])
  let s3 := s2.map Char.toLower
  match s3 with
  | c :: rest => if isWordChar c then String.mk (c.toUpper :: rest) else String.mk s3
  | [] => ""

/-- The stringified value of a field when truthy, else the given
default (the pattern of reading a query with a fallback literal). -/
def fieldOr (v : JVal) (k : String) (dflt : String) : String :=
  if (v.get k).truthy then jsToString (v.get k) else dflt

/-- Function getFriendlyToolDescription from toolMessages.js lines
62-108; returns none for a falsy tool name, as the source returns
null. -/
def getFriendlyToolDescription (toolName : String) (input : JVal) : Option String :=
  if toolName = "" then none
  else if toolName = "search_restaurants" then
    some ("Searching for " ++ fieldOr input "query" "restaurants" ++ " nearby...")
  else if toolName = "search_food_items" then
    some ("Finding \"" ++ fieldOr input "query" "food items" ++ "\" on the menu...")
  else if toolName = "get_restaurant_menu" then
    some "Looking up menu for restaurant..."
  else if toolName = "get_order_details" then
    some ("Retrieving details for " ++ fieldOr input "order_id" "your order" ++ "...")
  else if toolName = "initiate_refund" then
    some ("Processing refund request for " ++ fieldOr input "order_id" "your order" ++ "...")
  else if toolName = "unknown_tool" then
    some "Processing your request..."
  else if (input.get "query").truthy then
    some (formatToolName toolName ++ " for \"" ++ jsToString (input.get "query") ++ "\"...")
  else
    some (formatToolName toolName ++ "...")

/-- The truthy length of an output results field (an array with at
least one element; a nonempty string also has a truthy length). -/
def resultsLen (v : JVal) : Option Nat :=
  match v with
  | .arr xs => if xs.isEmpty then none else some xs.length
  | .str s => if s.isEmpty then none else some s.length
  | _ => none

/-- Function getToolCompletionMessage from toolMessages.js lines 12-54;
none for a falsy tool name. -/
def getToolCompletionMessage (toolName : String) (input output : JVal) : Option String :=
  if toolName = "" then none
  else if toolName = "search_restaurants" then
    let query := fieldOr input "query" "restaurants"
    match resultsLen (output.get "results") with
    | some n => some ("Found " ++ natStr n ++ " restaurants matching \"" ++ query ++ "\"")
    | none => some ("Completed search for \"" ++ query ++ "\"")
  else if toolName = "search_food_items" then
    let query := fieldOr input "query" "food items"
    match resultsLen (output.get "results") with
    | some n => some ("Found " ++ natStr n ++ " menu items matching \"" ++ query ++ "\"")
    | none => some ("Completed search for \"" ++ query ++ "\"")
  else if toolName = "get_restaurant_menu" then
    some "Received restaurant menu"
  else if toolName = "get_order_details" then
    some ("Retrieved details for " ++ fieldOr input "order_id" "your order")
  else if toolName = "initiate_refund" then
    some "Refund request processed"
  else
    some (formatToolName toolName ++ " completed!")

/-! ## Pattern matchers

The source uses a handful of small regular expressions; each is
implemented as a leftmost-match scanner with the same greedy
semantics on the inputs in scope. -/

/-- Try a prefix matcher at every suffix, leftmost success first (the
way a regex engine scans for an unanchored match). -/
def scanFirst {α : Type} (f : List Char → Option α) : List Char → Option α
  | [] => f []
  | c :: rest =>
    match f (c :: rest) with
    | some r => some r
    | none => scanFirst f rest

/-- Prefix match for a literal followed by a captured nonempty word-char
run (the shape of the patterns extracting a tool name out of a
human-readable data string). -/
def matchLitWordAt (lit : List Char) (cs : List Char) : Option (String × List Char) :=
  if lit.isPrefixOf cs then
    let rest := cs.drop lit.length
    let run := rest.takeWhile isWordChar
    if run.isEmpty then none else some (String.mk run, rest.drop run.length)
  else none

/-- Regex search for a literal followed by a captured word run. -/
def extractAfterLit (cs : List Char) (lit : String) : Option String :=
  (scanFirst (matchLitWordAt lit.data) cs).map Prod.fst

/-- Search for the pattern of a literal, a captured word run, then a
second literal (the Tool-completed pattern). -/
def extractBetweenLits (cs : List Char) (lit1 lit2 : String) : Option String :=
  scanFirst (fun suf =>
    match matchLitWordAt lit1.data suf with
    | some (w, rest) => if lit2.data.isPrefixOf rest then some w else none
    | none => none) cs

/-- A quote character (single or double), as in the quote alternations
of the tool-use extraction regexes. -/
def isQuote (c : Char) : Bool :=
  c = '"' || c = '\x27'

/-- Prefix match for the name-extraction regex of the reasoning-step
processor: a quote, the word name, a quote, colon space, a quote, a
captured nonempty run of non-quote characters, a quote. -/
def matchNameAt (cs : List Char) : Option String :=
  match cs with
  | q1 :: rest =>
    if isQuote q1 && ['n', 'a', 'm', 'e'].isPrefixOf rest then
      match rest.drop 4 with
      | q2 :: ':' :: ' ' :: q3 :: rest2 =>
        if isQuote q2 && isQuote q3 then
          let run := rest2.takeWhile (fun c => !isQuote c)
          if run.isEmpty then none
          else
            match rest2.drop run.length with
            | q4 :: _ => if isQuote q4 then some (String.mk run) else none
            | [] => none
        else none
      | _ => none
    else none
  | [] => none

/-- Prefix match for the partial-json extraction regex: a quoted
partial_json key, colon space, a quote, a captured brace-wrapped run of
non-quote characters, a quote. -/
def matchPartialJsonAt (cs : List Char) : Option String :=
  match cs with
  | q1 :: rest =>
    if isQuote q1 &&
        ['p', 'a', 'r', 't', 'i', 'a', 'l', '_', 'j', 's', 'o', 'n'].isPrefixOf rest then
      match rest.drop 12 with
      | q2 :: ':' :: ' ' :: q3 :: '\x7b' :: rest2 =>
        if isQuote q2 && isQuote q3 then
          let run := rest2.takeWhile (fun c => !isQuote c)
          match rest2.drop run.length with
          | q4 :: _ =>
            if isQuote q4 && run.getLast? = some '\x7d' && run.length ≥ 2 then
              some (String.mk ('\x7b' :: run))
            else none
          | [] => none
        else none
      | _ => none
    else none
  | [] => none

/-- Prefix match for the input-extraction fallback regex: a quoted
input key, colon space, then a captured brace-delimited run of
non-closing-brace characters. -/
def matchInputAt (cs : List Char) : Option String :=
  match cs with
  | q1 :: rest =>
    if isQuote q1 && ['i', 'n', 'p', 'u', 't'].isPrefixOf rest then
      match rest.drop 5 with
      | q2 :: ':' :: ' ' :: '\x7b' :: rest2 =>
        if isQuote q2 then
          let run := rest2.takeWhile (fun c => c ≠ '\x7d')
          if run.isEmpty then none
          else
            match rest2.drop run.length with
            | '\x7d' :: _ => some (String.mk ('\x7b' :: run ++ ['\x7d']))
            | _ => none
        else none
      | _ => none
    else none
  | [] => none

/-- Prefix match for the Invoking pattern of the normalizer: the word
Invoking with a colon, whitespace, a backticked tool name, whitespace,
the word with, whitespace, a backticked brace-wrapped parameter run. -/
def matchInvokingAt (cs : List Char) : Option (String × String) :=
  if "Invoking:".data.isPrefixOf cs then
    let r1 := (cs.drop 9).dropWhile jsWs
    match r1 with
    | '\x60' :: r2 =>
      let name := r2.takeWhile (fun c => c ≠ '\x60')
      if name.isEmpty then none
      else
        match r2.drop name.length with
        | '\x60' :: r3 =>
          let r4 := r3.dropWhile jsWs
          if ['w', 'i', 't', 'h'].isPrefixOf r4 then
            let r5 := (r4.drop 4).dropWhile jsWs
            match r5 with
            | '\x60' :: '\x7b' :: r6 =>
              let params := r6.takeWhile (fun c => c ≠ '\x7d')
              if params.isEmpty then none
              else
                match r6.drop params.length with
                | '\x7d' :: '\x60' :: _ => some (String.mk name, String.mk params)
                | _ => none
            | _ => none
          else none
        | _ => none
    | _ => none
  else none

/-- Lazy capture terminating at the first quote followed by a comma,
whitespace or closing brace; the dot of the regex cannot cross a
newline. -/
def lazyCaptureText : List Char → List Char → Option String
  | c :: next :: rest, acc =>
    if isQuote c && (next = ',' || jsWs next || next = '\x7d') then
      some (String.mk acc.reverse)
    else if c = '\n' then none
    else lazyCaptureText (next :: rest) (c :: acc)
  | _, _ => none

/-- Prefix match for the responded-text extraction regex: a quoted text
key, colon, whitespace, a quote, a lazily captured run (no newlines),
then a quote followed by a comma, whitespace or a closing brace. -/
def matchRespondedTextAt (cs : List Char) : Option String :=
  if ("\x27text\x27:").data.isPrefixOf cs then
    let r1 := (cs.drop 7).dropWhile jsWs
    match r1 with
    | q :: r2 =>
      if isQuote q then lazyCaptureText r2 []
      else none
    | [] => none
  else none

/-! ## Reasoning text normalizer (`eventProcessors.js`, processReasoningStep) -/

/-- The structure-onset markers the normalizer cuts the prose at:
quote-comma-quote, brace-after-brace-close, brace-then-quote (single or
double), bracket-brace. -/
def jsonMarkers : List (List Char) :=
  [['\x27', ',', ' ', '\x27'],
   ['\x7d', ',', ' ', '\x7b'],
   ['\x7b', '\x27'],
   ['\x7b', '"'],
   ['[', '\x7b']]

/-- Earliest marker position, defaulting to the text length (the
cutoff-index fold of the normalizer). -/
def markerCutoff (cs : List Char) : Nat :=
  jsonMarkers.foldl
    (fun acc mk =>
      match findSub cs mk with
      | some i => if i < acc then i else acc
      | none => acc)
    cs.length

/-- The cleaning pipeline of processReasoningStep (eventProcessors.js
lines 101-149) on a reasoning thought.  The whole block is guarded by
the truthiness of the thought, so an empty thought skips everything,
placeholder included; otherwise: cut at the earliest structure marker
and trim; re-append a readable Invoking pattern and a responded text
when present in the raw thought; unescape, collapse newline runs, trim;
substitute the Step placeholder when the result is empty.  The
pipeline up to the final trim is cleanedThoughtCore. -/
def cleanedThoughtCore (thought : String) : List Char :=
  let cs := thought.data
  let c1 := trimList (cs.take (markerCutoff cs))
  let c2 :=
    if containsSub cs ("Invoking:".data) then
      match scanFirst matchInvokingAt cs with
      | some (tn, params) =>
        c1 ++ ("\n\nUsing ").data ++ tn.data ++ (" with ").data ++ trimList params.data
      | none => c1
    else c1
  let c3 :=
    if containsSub cs (("responded:").data)
        && containsSub cs (("\x27type\x27: \x27text\x27").data) then
      match scanFirst matchRespondedTextAt cs with
      | some t => if t ≠ "" then c2 ++ ("\n\n").data ++ trimList t.data else c2
      | none => c2
    else c2
  let c4 := replaceSub '\\' ['n'] ['\n'] c3
  let c5 := replaceSub '\\' ['"'] ['"'] c4
  trimList (collapseNL c5)

/-- The cleaned thought of processReasoningStep: the guard, the
cleaning pipeline, and the Step placeholder for an empty result. -/
def cleanReasoningThought (thought : String) (step : Nat) : String :=
  if thought = "" then thought
  else
    let c6 := cleanedThoughtCore thought
    if trimList c6 = [] then "Step " ++ natStr step
    else String.mk c6

/-- The two tool-use markers probed by processReasoningStep lines
39-40. -/
def toolUseMarkers : List (List Char) :=
  [("\x27type\x27: \x27tool_use\x27").data, ("\"type\": \"tool_use\"").data]

/-- Best-effort tool-call extraction of processReasoningStep lines
36-69: when the raw thought carries a tool-use marker, extract the
first quoted name value; the input object comes from the first
partial-json or input fragment, unescaped and JSON-parsed, defaulting
to an empty object. -/
def extractToolUse (thought : String) : Option (String × JVal) :=
  let cs := thought.data
  if toolUseMarkers.any (fun mk => containsSub cs mk) then
    match scanFirst matchNameAt cs with
    | some toolName =>
      let fragment :=
        match scanFirst matchPartialJsonAt cs with
        | some f => some f
        | none => scanFirst matchInputAt cs
      let toolInput :=
        match fragment with
        | some f =>
          let cleaned := replaceSub '\\' ['\\'] ['\\'] (replaceSub '\\' ['"'] ['"'] f.data)
          match jsonParse (String.mk cleaned) with
          | some v => v
          | none => JVal.obj []
        | none => JVal.obj []
      some (toolName, toolInput)
    | none => none
  else none

/-! ## Tool execution records and handlers

The record shape assembled by the tool event handlers
(`toolEventHandlers.js`); `origin` is a ghost provenance annotation used
only by the verification (no handler branches on it), and `id` models
the synthesized identifier as a counter (the source concatenates a
timestamp and a random suffix). -/

/-- Which processor created a record. -/
inductive RecOrigin where
  | fromReasoning : RecOrigin
  | fromAgentAction : RecOrigin
  | fromToolStart : RecOrigin
  | fromToolEnd : RecOrigin
  | fromToolError : RecOrigin
deriving Repr, DecidableEq

/-- Status of a tool execution record. -/
inductive ToolStatus where
  | started : ToolStatus
  | completed : ToolStatus
  | error : ToolStatus
deriving Repr, DecidableEq

/-- One tool-execution record of the timeline. -/
structure ToolRecord where
  id : Option Nat
  toolName : String
  status : ToolStatus
  data : Option String
  originalData : Option String
  input : JVal
  output : JVal
  error : Option String
  origin : RecOrigin

/-- Fallbacks of the tool_start name resolution. -/
def toolStartNameFallback (input : JVal) (dataStr : Option String) : String :=
  if input.isObjectType && input.truthy && (input.get "tool").truthy then
    jsToString (input.get "tool")
  else
    match dataStr with
    | some d =>
      match extractAfterLit d.data "Using " with
      | some w => w
      | none => "Unknown Tool"
    | none => "Unknown Tool"

/-- Tool-name resolution of processToolStart (toolEventHandlers.js
lines 147-162): event tool_name first, then a tool key inside an input
object, then a Using pattern in the data string, else Unknown Tool. -/
def toolStartName (toolName : Option String) (input : JVal) (dataStr : Option String) : String :=
  match toolName with
  | some tn => if tn ≠ "" then tn else toolStartNameFallback input dataStr
  | none => toolStartNameFallback input dataStr


/-- Function processToolStart from toolEventHandlers.js lines 138-188:
append a started record with a synthesized id and a friendly
description; the new record also becomes the live execution. -/
def processToolStart (toolName : Option String) (input : JVal) (dataStr : Option String)
    (currentToolHistory : List ToolRecord) (nextId : Nat) :
    List ToolRecord × ToolRecord :=
  let name := toolStartName toolName input dataStr
  let friendly := getFriendlyToolDescription name input
  let newTool : ToolRecord :=
    { id := some nextId
      toolName := name
      status := .started
      data := match friendly with | some f => if f ≠ "" then some f else dataStr | none => dataStr
      originalData := dataStr
      input := input
      output := JVal.undefined
      error := none
      origin := .fromToolStart }
  (currentToolHistory ++ [newTool], newTool)

/-- Tool-name extraction from a Tool-completed data string. -/
def toolEndNameFromData (dataStr : Option String) : String :=
  match dataStr with
  | some d =>
    match extractBetweenLits d.data "Tool " " completed" with
    | some w => w
    | none => "Unknown Tool"
  | none => "Unknown Tool"

/-- Function processToolEnd from toolEventHandlers.js lines 198-264:
correlate positionally with the last record of the timeline (whatever
its status); when the timeline is nonempty the last record is
overwritten in place with completed status, a completion message and
the new output; when it is empty the timeline is left untouched; the
live execution is always set to a standalone completed record. -/
def processToolEnd (output : JVal) (dataStr : Option String) (toolName : Option String)
    (currentToolHistory : List ToolRecord) :
    List ToolRecord × ToolRecord :=
  match currentToolHistory.getLast? with
  | some lastTool =>
    let completionMsg := getToolCompletionMessage lastTool.toolName lastTool.input output
    let updated : ToolRecord :=
      { lastTool with
          status := .completed
          data := match completionMsg with | some m => if m ≠ "" then some m else dataStr | none => dataStr
          originalData := lastTool.originalData
          output := output }
    (currentToolHistory.dropLast ++ [updated],
     { id := lastTool.id
       toolName := lastTool.toolName
       status := .completed
       data := match completionMsg with | some m => if m ≠ "" then some m else dataStr | none => dataStr
       originalData := lastTool.originalData
       input := JVal.undefined
       output := output
       error := none
       origin := .fromToolEnd })
  | none =>
    let name :=
      match toolName with
      | some tn => if tn ≠ "" then tn else toolEndNameFromData dataStr
      | none => toolEndNameFromData dataStr
    let completionMsg := getToolCompletionMessage name JVal.null output
    (currentToolHistory,
     { id := none
       toolName := name
       status := .completed
       data := match completionMsg with | some m => if m ≠ "" then some m else dataStr | none => dataStr
       originalData := none
       input := JVal.undefined
       output := output
       error := none
       origin := .fromToolEnd })

/-- Fallbacks of the tool_error name resolution. -/
def toolErrorNameFallback (dataStr : Option String)
    (currentToolHistory : List ToolRecord) : String :=
  match currentToolHistory.getLast? with
  | some lastTool => lastTool.toolName
  | none =>
    match dataStr with
    | some d =>
      match extractAfterLit d.data "Error executing " with
      | some w => w
      | none => "Unknown Tool"
    | none => "Unknown Tool"

/-- Tool-name resolution of processToolError (toolEventHandlers.js
lines 287-302): event tool_name, then the last record of the timeline,
then an Error-executing pattern, else Unknown Tool. -/
def toolErrorName (toolName : Option String) (dataStr : Option String)
    (currentToolHistory : List ToolRecord) : String :=
  match toolName with
  | some tn =>
    if tn ≠ "" then tn else toolErrorNameFallback dataStr currentToolHistory
  | none => toolErrorNameFallback dataStr currentToolHistory


/-- Function processToolError from toolEventHandlers.js lines 276-350:
overwrite the last record with error status when the timeline is
nonempty, otherwise append a standalone error record; always set a
standalone live error record, and append the error text to the thinking
trace when present. -/
def processToolError (dataStr : Option String) (output : JVal) (toolName : Option String)
    (currentToolHistory : List ToolRecord) (thinkingText : String) :
    List ToolRecord × ToolRecord × String :=
  let name := toolErrorName toolName dataStr currentToolHistory
  let updatedHistory :=
    match currentToolHistory.getLast? with
    | some lastTool =>
      currentToolHistory.dropLast ++
        [{ lastTool with status := .error, error := dataStr, output := output }]
    | none =>
      [{ id := none
         toolName := name
         status := .error
         data := none
         originalData := none
         input := JVal.undefined
         output := output
         error := dataStr
         origin := .fromToolError }]
  let liveRecord : ToolRecord :=
    { id := none
      toolName := name
      status := .error
      data := dataStr
      originalData := none
      input := JVal.undefined
      output := output
      error := none
      origin := .fromToolError }
  let updatedThinking :=
    match dataStr with
    | some d => if d ≠ "" then thinkingText ++ "\n\n" ++ d else thinkingText
    | none => thinkingText
  (updatedHistory, liveRecord, updatedThinking)

/-- Function processAgentAction from eventProcessors.js lines 170-214:
with a truthy tool name, append a started record (the input defaulting
to an empty object) and set it live; otherwise change nothing. -/
def processAgentAction (toolName : Option String) (input : JVal) (dataStr : Option String)
    (currentToolHistory : List ToolRecord) (nextId : Nat) :
    List ToolRecord × Option ToolRecord :=
  match toolName with
  | some tn =>
    if tn ≠ "" then
      let toolInput := if input.truthy then input else JVal.obj []
      let friendly := getFriendlyToolDescription tn toolInput
      let newTool : ToolRecord :=
        { id := some nextId
          toolName := tn
          status := .started
          data :=
            match friendly with
            | some f =>
              if f ≠ "" then some f
              else (match dataStr with
                    | some d => if d ≠ "" then some d else some ("Using " ++ tn ++ "...")
                    | none => some ("Using " ++ tn ++ "..."))
            | none =>
              match dataStr with
              | some d => if d ≠ "" then some d else some ("Using " ++ tn ++ "...")
              | none => some ("Using " ++ tn ++ "...")
          originalData := dataStr
          input := toolInput
          output := JVal.undefined
          error := none
          origin := .fromAgentAction }
      (currentToolHistory ++ [newTool], some newTool)
    else (currentToolHistory, none)
  | none => (currentToolHistory, none)

/-- The preliminary record synthesized by processReasoningStep lines
71-94 when a tool-use marker yields a name. -/
def prelimToolRecord (toolName : String) (toolInput : JVal) (nextId : Nat) : ToolRecord :=
  { id := some nextId
    toolName := toolName
    status := .started
    data :=
      match getFriendlyToolDescription toolName toolInput with
      | some f => if f ≠ "" then some f else some ("Using " ++ toolName ++ "...")
      | none => some ("Using " ++ toolName ++ "...")
    originalData := none
    input := toolInput
    output := JVal.undefined
    error := none
    origin := .fromReasoning }

/-! ## Session store and turn assembler (`index.js`, `conversationManager.js`) -/

/-- Function processStructuredData from structuredDataProcessor.js
lines 10-30, the per-message formatting pass applied at turn
finalization: pass well-formed items through, infer a food-item or
restaurant type when only data is present, return everything else
as-is. -/
def formatStructuredItems (items : List JVal) : List JVal :=
  items.map (fun item =>
    if item.truthy && (item.get "type").truthy && (item.get "data").truthy then item
    else if item.truthy && !(item.get "type").truthy && (item.get "data").truthy then
      let d := item.get "data"
      if (d.get "name").truthy && ((d.get "price").truthy || (d.get "menu").truthy) then
        JVal.tagged "food_item" d
      else if (d.get "name").truthy && (d.get "rating").truthy then
        JVal.tagged "restaurant" d
      else item
    else item)

/-- A chat message of the session store.  The toolHistory field models
the messageToolHistory entry saved under the message id at
finalization; id and timestamp are environmental and not modelled. -/
structure Msg where
  text : String
  isUser : Bool
  error : Bool := false
  image : Option String := none
  structuredData : List JVal := []
  reasoningSteps : Option (List (Nat × String)) := none
  hasToolUse : Bool := false
  toolHistory : List ToolRecord := []

/-- Function formatUserMessage from conversationManager.js lines
64-71. -/
def formatUserMessage (messageText : String) (image : Option String) : Msg :=
  { text := messageText, isUser := true, image := image }

/-- Function formatAgentResponse from conversationManager.js lines
82-95, together with the messageToolHistory save of index.js lines
222-225. -/
def formatAgentResponse (responseText : String) (structuredDataItems : List JVal)
    (reasoningSteps : List (Nat × String)) (toolHistory : List ToolRecord) : Msg :=
  { text := responseText
    isUser := false
    structuredData := structuredDataItems
    hasToolUse := !toolHistory.isEmpty
    reasoningSteps := if !reasoningSteps.isEmpty then some reasoningSteps else none
    toolHistory := toolHistory }

/-- Function formatErrorMessage from conversationManager.js lines
103-110. -/
def formatErrorMessage (errorMessage : String) : Msg :=
  { text := if errorMessage ≠ "" then errorMessage
            else "Sorry, I encountered an error. Please try again."
    isUser := false
    error := true }

/-- The React state of useChatStream (index.js lines 32-40).
requestsSent is a ghost counter of issued fetch requests, used only by
the verification. -/
structure LiveState where
  messages : List Msg
  thinking : String
  toolExecution : Option ToolRecord
  toolHistory : List ToolRecord
  processCollapsed : Bool
  conversationId : Option String
  error : Option String
  isLoading : Bool
  requestsSent : Nat

/-- The initial hook state. -/
def initialLiveState : LiveState :=
  { messages := []
    thinking := ""
    toolExecution := none
    toolHistory := []
    processCollapsed := false
    conversationId := none
    error := none
    isLoading := false
    requestsSent := 0 }

/-- Function clearMessages from index.js lines 261-268: reset messages,
thinking, live execution, tool history, conversation id and error.  It
performs no abort of an in-flight stream read. -/
def clearMessages (st : LiveState) : LiveState :=
  { st with
      messages := []
      thinking := ""
      toolExecution := none
      toolHistory := []
      conversationId := none
      error := none }

/-- One decoded stream event, as dispatched by the switch of index.js
lines 120-202.  Field layout follows the payload shapes of the
producer; absent fields are none. -/
inductive Event where
  | thinking (text : String) : Event
  | reasoning_step (step : Nat) (thought : String) : Event
  | agent_action (toolName : Option String) (input : JVal) (dataStr : Option String) : Event
  | message (text : String) : Event
  | structured_data (payload : JVal) : Event
  | tool_start (toolName : Option String) (input : JVal) (dataStr : Option String) : Event
  | tool_end (output : JVal) (dataStr : Option String) (toolName : Option String) : Event
  | tool_error (dataStr : Option String) (output : JVal) (toolName : Option String) : Event
  | done (conversationId : Option String) : Event

/-- The loop-local accumulators of sendMessage (index.js lines
102-106), plus a ghost id counter and the captured live execution that
the done handler reads from the callback closure. -/
structure TurnLocal where
  thinkingText : String
  responseText : String
  structuredDataItems : List JVal
  currentToolHistory : List ToolRecord
  reasoningSteps : List (Nat × String)
  nextId : Nat
  capturedToolExecution : Option ToolRecord

/-- Dispatch of one decoded event (the switch of index.js lines
120-202), updating the loop locals and the React state together. -/
def processEvent (tl : TurnLocal) (live : LiveState) : Event → TurnLocal × LiveState
  | .thinking s =>
    let t := tl.thinkingText ++ s
    ({ tl with thinkingText := t }, { live with thinking := t })
  | .reasoning_step step thought =>
    let steps := tl.reasoningSteps ++ [(step, thought)]
    let (live1, nid) :=
      match extractToolUse thought with
      | some (toolName, toolInput) =>
        let prelim := prelimToolRecord toolName toolInput tl.nextId
        ({ live with
             toolHistory := live.toolHistory ++ [prelim]
             processCollapsed := false
             toolExecution := some prelim },
         tl.nextId + 1)
      | none => (live, tl.nextId)
    let clean := cleanReasoningThought thought step
    let t := tl.thinkingText ++ "\n\nStep " ++ natStr step ++ ": " ++ clean
    ({ tl with thinkingText := t, reasoningSteps := steps, nextId := nid },
     { live1 with thinking := t })
  | .agent_action toolName input dataStr =>
    match processAgentAction toolName input dataStr tl.currentToolHistory tl.nextId with
    | (hist, some newTool) =>
      ({ tl with currentToolHistory := hist, nextId := tl.nextId + 1 },
       { live with toolHistory := hist, toolExecution := some newTool,
                   processCollapsed := false })
    | (hist, none) => ({ tl with currentToolHistory := hist }, live)
  | .message s => ({ tl with responseText := s }, live)
  | .structured_data payload =>
    if payload.truthy then
      ({ tl with structuredDataItems := tl.structuredDataItems ++ [detectStructuredData payload] },
       live)
    else (tl, live)
  | .tool_start toolName input dataStr =>
    let (hist, newTool) := processToolStart toolName input dataStr tl.currentToolHistory tl.nextId
    ({ tl with currentToolHistory := hist, nextId := tl.nextId + 1 },
     { live with toolHistory := hist, toolExecution := some newTool,
                 processCollapsed := false })
  | .tool_end output dataStr toolName =>
    let (hist, liveRec) := processToolEnd output dataStr toolName tl.currentToolHistory
    ({ tl with currentToolHistory := hist },
     { live with
         toolHistory := if tl.currentToolHistory.isEmpty then live.toolHistory else hist
         toolExecution := some liveRec })
  | .tool_error dataStr output toolName =>
    let (hist, liveRec, thinking) :=
      processToolError dataStr output toolName tl.currentToolHistory tl.thinkingText
    ({ tl with currentToolHistory := hist, thinkingText := thinking },
     { live with toolHistory := hist, toolExecution := some liveRec, thinking := thinking })
  | .done conversationId =>
    let live1 :=
      match conversationId with
      | some cid => if cid ≠ "" then { live with conversationId := some cid } else live
      | none => live
    match tl.capturedToolExecution with
    | some r =>
      if r.status = .completed || r.status = .error then
        -- the grace-period timer defers the collapse; the timer callback
        -- is outside the turn and not modelled
        (tl, live1)
      else (tl, { live1 with processCollapsed := true, toolExecution := none })
    | none => (tl, { live1 with processCollapsed := true, toolExecution := none })

/-- Process a list of decoded events in order. -/
def runEvents (tl : TurnLocal) (live : LiveState) : List Event → TurnLocal × LiveState
  | [] => (tl, live)
  | ev :: rest =>
    let (tl1, live1) := processEvent tl live ev
    runEvents tl1 live1 rest

/-- Turn finalization (index.js lines 210-242): append an assistant
message when any accumulator is nonempty, saving the turn timeline with
it and resetting the tool history; otherwise do nothing. -/
def finalizeTurn (tl : TurnLocal) (live : LiveState) : LiveState :=
  if tl.responseText ≠ "" || !tl.structuredDataItems.isEmpty || !tl.reasoningSteps.isEmpty then
    let processed := formatStructuredItems tl.structuredDataItems
    let agentMsg := formatAgentResponse tl.responseText processed tl.reasoningSteps
      tl.currentToolHistory
    { live with messages := live.messages ++ [agentMsg], toolHistory := [] }
  else live

/-- The loop locals at request start (index.js lines 102-106): the
turn-local timeline is seeded from the captured toolHistory state. -/
def initTurnLocal (live : LiveState) : TurnLocal :=
  { thinkingText := ""
    responseText := ""
    structuredDataItems := []
    currentToolHistory := live.toolHistory
    reasoningSteps := []
    nextId := 0
    capturedToolExecution := live.toolExecution }

/-- Function sendMessage from index.js lines 52-256 over decoded
events.  A whitespace-only message short-circuits before any state
change.  failure, when present, is a transport error surfacing after
the given number of events (a rejected fetch or a failed read): the
catch appends an error message and sets the error state, with no reset
of the tool history.  The finally block clears the loading flag and the
thinking overlay. -/
def sendMessage (live : LiveState) (messageText : String) (image : Option String)
    (events : List Event) (failure : Option (Nat × String)) : LiveState :=
  if jsTrim messageText = "" then live
  else
    let live1 : LiveState :=
      { live with
          messages := live.messages ++ [formatUserMessage messageText image]
          isLoading := true
          thinking := ""
          error := none
          requestsSent := live.requestsSent + 1 }
    let tl0 := initTurnLocal live
    match failure with
    | some (k, errMsg) =>
      let (_, live2) := runEvents tl0 live1 (events.take k)
      let live3 :=
        { live2 with
            error := some (if errMsg ≠ "" then errMsg else "Failed to send message")
            messages := live2.messages ++ [formatErrorMessage errMsg] }
      { live3 with isLoading := false, thinking := "" }
    | none =>
      let (tl1, live2) := runEvents tl0 live1 events
      let live3 := finalizeTurn tl1 live2
      { live3 with isLoading := false, thinking := "" }

/-- Mid-turn interleaving of clearMessages: the clear runs at an await
boundary after the first k events; the loop then continues with the
remaining events and finalizes against the cleared state (there is no
abort signal connecting clearMessages to the running read loop). -/
def sendMessageWithClear (live : LiveState) (messageText : String)
    (events : List Event) (k : Nat) : LiveState :=
  if jsTrim messageText = "" then live
  else
    let live1 : LiveState :=
      { live with
          messages := live.messages ++ [formatUserMessage messageText none]
          isLoading := true
          thinking := ""
          error := none
          requestsSent := live.requestsSent + 1 }
    let tl0 := initTurnLocal live
    let (tl1, live2) := runEvents tl0 live1 (events.take k)
    let cleared := clearMessages live2
    let (tl2, live3) := runEvents tl1 cleared (events.drop k)
    let live4 := finalizeTurn tl2 live3
    { live4 with isLoading := false, thinking := "" }

/-! ## Embedded card parser (`cardParser.js`, parseMessageWithCards)

The card pattern accepts an opening run of two to five colons followed
by a type word, or a bracketed type word; then optional whitespace, a
brace block balanced to depth three (the nested-group regex), optional
whitespace, and a closing colon run or bracket.  The scanners below
implement the same leftmost, greedy matching. -/

/-- The closed alternation of card type words, in the order of the
pattern. -/
def cardTypeWords : List (List Char) :=
  [("restaurant").data, ("food_item").data, ("product").data,
   ("order_details").data, ("refund_status").data, ("cart").data]

/-- Innermost brace level of the card pattern: a brace pair with no
braces inside. -/
def braceL3 (cs : List Char) : Option (List Char × List Char) :=
  match cs with
  | '\x7b' :: rest =>
    let run := rest.takeWhile (fun c => c ≠ '\x7b' && c ≠ '\x7d')
    match rest.drop run.length with
    | '\x7d' :: r => some ('\x7b' :: run ++ ['\x7d'], r)
    | _ => none
  | _ => none

/-- Middle level: the starred group of non-brace characters and
innermost blocks, up to and including the closing brace.  The
alternatives are first-character disjoint, so the greedy scan is the
regex behaviour. -/
def braceStar2 : Nat → List Char → Option (List Char × List Char)
  | 0, _ => none
  | _ + 1, [] => none
  | _ + 1, '\x7d' :: r => some (['\x7d'], r)
  | fuel + 1, '\x7b' :: r =>
    match braceL3 ('\x7b' :: r) with
    | some (blk, rest) =>
      match braceStar2 fuel rest with
      | some (cc, rr) => some (blk ++ cc, rr)
      | none => none
    | none => none
  | fuel + 1, c :: r =>
    match braceStar2 fuel r with
    | some (cc, rr) => some (c :: cc, rr)
    | none => none

/-- Middle-level brace block. -/
def braceL2 (fuel : Nat) (cs : List Char) : Option (List Char × List Char) :=
  match cs with
  | '\x7b' :: rest =>
    match braceStar2 fuel rest with
    | some (body, r) => some ('\x7b' :: body, r)
    | none => none
  | _ => none

/-- Outermost starred group, up to and including the closing brace. -/
def braceStar1 : Nat → List Char → Option (List Char × List Char)
  | 0, _ => none
  | _ + 1, [] => none
  | _ + 1, '\x7d' :: r => some (['\x7d'], r)
  | fuel + 1, '\x7b' :: r =>
    match braceL2 fuel ('\x7b' :: r) with
    | some (blk, rest) =>
      match braceStar1 fuel rest with
      | some (cc, rr) => some (blk ++ cc, rr)
      | none => none
    | none => none
  | fuel + 1, c :: r =>
    match braceStar1 fuel r with
    | some (cc, rr) => some (c :: cc, rr)
    | none => none

/-- The full brace block of the card pattern (balanced to depth
three). -/
def braceTop (fuel : Nat) (cs : List Char) : Option (List Char × List Char) :=
  match cs with
  | '\x7b' :: rest =>
    match braceStar1 fuel rest with
    | some (body, r) => some ('\x7b' :: body, r)
    | none => none
  | _ => none

/-- The closing marker: a greedy colon run of two to five, else a
closing bracket; returns the consumed length. -/
def matchCloser (cs : List Char) : Option Nat :=
  let run := (cs.takeWhile (fun c => c = ':')).length
  if run ≥ 2 then some (min run 5)
  else
    match cs with
    | ']' :: _ => some 1
    | _ => none

/-- After the type word: optional whitespace, the brace block, optional
whitespace, the closing marker.  Returns the json body capture and the
consumed length. -/
def matchCardTail (fuel : Nat) (afterType : List Char) : Option (List Char × Nat) :=
  let ws1 := (afterType.takeWhile jsWs).length
  match braceTop fuel (afterType.drop ws1) with
  | some (body, r2) =>
    let ws2 := (r2.takeWhile jsWs).length
    match matchCloser (r2.drop ws2) with
    | some n => some (body, ws1 + body.length + ws2 + n)
    | none => none
  | none => none

/-- Attempt the card pattern with an opening colon run of the given
count. -/
def matchCardColon (fuel : Nat) (cs : List Char) (c : Nat) :
    Option (String × List Char × Nat) :=
  cardTypeWords.findSome? (fun w =>
    if w.isPrefixOf (cs.drop c) then
      match matchCardTail fuel (cs.drop (c + w.length)) with
      | some (body, n) => some (String.mk w, body, c + w.length + n)
      | none => none
    else none)

/-- Attempt the full card pattern at this position: colon-run
alternative with greedy backtracking from five colons down to two, then
the bracketed alternative.  Returns the type word, the json body and
the match length. -/
def matchCardAt (fuel : Nat) (cs : List Char) : Option (String × List Char × Nat) :=
  let crun := (cs.takeWhile (fun c => c = ':')).length
  match ((List.range 4).map (fun i => 5 - i)).findSome?
      (fun c => if c ≤ crun then matchCardColon fuel cs c else none) with
  | some r => some r
  | none =>
    match cs with
    | '[' :: rest =>
      cardTypeWords.findSome? (fun w =>
        if w.isPrefixOf rest && (rest.drop w.length).headD ' ' = ']' then
          match matchCardTail fuel (rest.drop (w.length + 1)) with
          | some (body, n) => some (String.mk w, body, 1 + w.length + 1 + n)
          | none => none
        else none)
    | _ => none

/-- The global exec loop: find successive non-overlapping leftmost
matches; each yields the match index, type word, json body and match
length. -/
def scanCards : Nat → List Char → Nat → List (Nat × String × List Char × Nat)
  | 0, _, _ => []
  | fuel + 1, cs, i =>
    match cs with
    | [] => []
    | _ :: rest =>
      match matchCardAt (cs.length + 1) cs with
      | some (t, b, len) => (i, t, b, len) :: scanCards fuel (cs.drop len) (i + len)
      | none => scanCards fuel rest (i + 1)

/-- Quote unquoted keys: every word run followed by optional whitespace
and a colon becomes a quoted key (first replace of the stage-two
cleanup). -/
def quoteKeys : Nat → List Char → List Char
  | 0, cs => cs
  | _ + 1, [] => []
  | fuel + 1, c :: rest =>
    if isWordChar c then
      let run := (c :: rest).takeWhile isWordChar
      let after := (c :: rest).drop run.length
      let ws := (after.takeWhile jsWs).length
      match after.drop ws with
      | ':' :: r2 => '"' :: run ++ '"' :: ':' :: quoteKeys fuel r2
      | _ => run ++ quoteKeys fuel after
    else c :: quoteKeys fuel rest

/-- Normalize spacing around quoted string values: colon, whitespace, a
quoted run, whitespace, a comma or closing brace (fifth replace of the
stage-two cleanup). -/
def fixStringSpacing : Nat → List Char → List Char
  | 0, cs => cs
  | _ + 1, [] => []
  | fuel + 1, ':' :: rest =>
    let ws1 := (rest.takeWhile jsWs).length
    (match rest.drop ws1 with
     | '"' :: r2 =>
       let run := r2.takeWhile (fun c => c ≠ '"')
       (match r2.drop run.length with
        | '"' :: r3 =>
          let ws2 := (r3.takeWhile jsWs).length
          (match r3.drop ws2 with
           | ',' :: r4 => ':' :: '"' :: run ++ '"' :: ',' :: fixStringSpacing fuel r4
           | '\x7d' :: r4 => ':' :: '"' :: run ++ '"' :: '\x7d' :: fixStringSpacing fuel r4
           | _ => ':' :: fixStringSpacing fuel rest)
        | _ => ':' :: fixStringSpacing fuel rest)
     | _ => ':' :: fixStringSpacing fuel rest)
  | fuel + 1, c :: rest => c :: fixStringSpacing fuel rest

/-- Greedy match of the numeric-value pattern of the cleanup regexes:
an optional sign, digits, an optional point with digits. -/
def matchNumToken (cs : List Char) : Option (List Char × List Char) :=
  let (sign, r1) :=
    match cs with
    | '-' :: r => (['-'], r)
    | '+' :: r => (['+'], r)
    | _ => (([] : List Char), cs)
  let d1 := r1.takeWhile Char.isDigit
  let afterD1 := r1.drop d1.length
  match afterD1 with
  | '.' :: r2 =>
    let d2 := r2.takeWhile Char.isDigit
    if d2.isEmpty then
      if d1.isEmpty then none else some (sign ++ d1, afterD1)
    else some (sign ++ d1 ++ '.' :: d2, r2.drop d2.length)
  | _ => if d1.isEmpty then none else some (sign ++ d1, afterD1)

/-- Normalize spacing around numeric values: colon, whitespace, a
number, whitespace, a comma or closing brace (sixth replace of the
stage-two cleanup). -/
def fixNumSpacing : Nat → List Char → List Char
  | 0, cs => cs
  | _ + 1, [] => []
  | fuel + 1, ':' :: rest =>
    let ws1 := (rest.takeWhile jsWs).length
    (match matchNumToken (rest.drop ws1) with
     | some (numTok, r2) =>
       let ws2 := (r2.takeWhile jsWs).length
       (match r2.drop ws2 with
        | ',' :: r3 => ':' :: numTok ++ ',' :: fixNumSpacing fuel r3
        | '\x7d' :: r3 => ':' :: numTok ++ '\x7d' :: fixNumSpacing fuel r3
        | _ => ':' :: fixNumSpacing fuel rest)
     | none => ':' :: fixNumSpacing fuel rest)
  | fuel + 1, c :: rest => c :: fixNumSpacing fuel rest

/-- The stage-two cleanup chain applied to a card body (the cleanJsonText
of parseMessageWithCards): quote bare keys, single quotes to double
quotes, the identity trailing-comma replace (its replacement string is
the matched text itself), newlines to spaces, then the two spacing
normalizations. -/
def cleanJson (cs : List Char) : List Char :=
  let s1 := quoteKeys (cs.length + 1) cs
  let s2 := s1.map (fun c => if c = '\x27' then '"' else c)
  let s3 := s2
  let s4 := s3.map (fun c => if c = '\n' then ' ' else c)
  let s5 := fixStringSpacing (s4.length + 1) s4
  fixNumSpacing (s5.length + 1) s5

/-- Quote keys after an opening brace or comma (first replace of the
stage-three cleanup). -/
def quoteKeysAfterSep : Nat → List Char → List Char
  | 0, cs => cs
  | _ + 1, [] => []
  | fuel + 1, c :: rest =>
    if c = '\x7b' || c = ',' then
      let ws := (rest.takeWhile jsWs).length
      let run := (rest.drop ws).takeWhile isWordChar
      if run.isEmpty then c :: quoteKeysAfterSep fuel rest
      else
        match (rest.drop ws).drop run.length with
        | ':' :: r2 => c :: '"' :: run ++ '"' :: ':' :: quoteKeysAfterSep fuel r2
        | _ => c :: quoteKeysAfterSep fuel rest
    else c :: quoteKeysAfterSep fuel rest

/-- Normalize quoted key-value pairs (second replace of the stage-three
cleanup): a quoted run, whitespace, colon, whitespace, a quoted run. -/
def fixPairSpacing : Nat → List Char → List Char
  | 0, cs => cs
  | _ + 1, [] => []
  | fuel + 1, '"' :: rest =>
    let k := rest.takeWhile (fun c => c ≠ '"')
    (match rest.drop k.length with
     | '"' :: r2 =>
       let ws1 := (r2.takeWhile jsWs).length
       (match r2.drop ws1 with
        | ':' :: r3 =>
          let ws2 := (r3.takeWhile jsWs).length
          (match r3.drop ws2 with
           | '"' :: r4 =>
             let v := r4.takeWhile (fun c => c ≠ '"')
             (match r4.drop v.length with
              | '"' :: r5 =>
                '"' :: k ++ '"' :: ':' :: '"' :: v ++ '"' :: fixPairSpacing fuel r5
              | _ => '"' :: fixPairSpacing fuel rest)
           | _ => '"' :: fixPairSpacing fuel rest)
        | _ => '"' :: fixPairSpacing fuel rest)
     | _ => '"' :: fixPairSpacing fuel rest)
  | fuel + 1, c :: rest => c :: fixPairSpacing fuel rest

/-- Remove a comma before a closing brace or bracket (third and fourth
replaces of the stage-three cleanup). -/
def dropTrailingCommas : Nat → List Char → List Char
  | 0, cs => cs
  | _ + 1, [] => []
  | fuel + 1, ',' :: rest =>
    let ws := (rest.takeWhile jsWs).length
    (match rest.drop ws with
     | '\x7d' :: r2 => '\x7d' :: dropTrailingCommas fuel r2
     | ']' :: r2 => ']' :: dropTrailingCommas fuel r2
     | _ => ',' :: dropTrailingCommas fuel rest)
  | fuel + 1, c :: rest => c :: dropTrailingCommas fuel rest

/-- The stage-three cleanup (the ultraCleanJson of
parseMessageWithCards), applied on top of the stage-two text. -/
def ultraCleanJson (cs : List Char) : List Char :=
  let s1 := quoteKeysAfterSep (cs.length + 1) cs
  let s2 := fixPairSpacing (s1.length + 1) s1
  dropTrailingCommas (s2.length + 1) s2

/-- One match of the stage-four key-value pattern: an optionally quoted
word key, colon with whitespace, then a quoted string, a number, a
bracketed run or a braced run. -/
def matchKeyValueAt (cs : List Char) : Option ((String × JVal) × List Char) :=
  let (key, afterKey) :=
    match cs with
    | '"' :: r =>
      let run := r.takeWhile isWordChar
      (match r.drop run.length with
       | '"' :: r2 => (run, r2)
       | _ => (([] : List Char), cs))
    | _ =>
      let run := cs.takeWhile isWordChar
      (run, cs.drop run.length)
  if key.isEmpty then none
  else
    let ws1 := (afterKey.takeWhile jsWs).length
    match afterKey.drop ws1 with
    | ':' :: r1 =>
      let ws2 := (r1.takeWhile jsWs).length
      let r2 := r1.drop ws2
      (match r2 with
       | '"' :: r3 =>
         let v := r3.takeWhile (fun c => c ≠ '"')
         (match r3.drop v.length with
          | '"' :: r4 => some ((String.mk key, .str (String.mk v)), r4)
          | _ => none)
       | '[' :: r3 =>
         let v := r3.takeWhile (fun c => c ≠ ']')
         (match r3.drop v.length with
          | ']' :: r4 =>
            let raw := String.mk ('[' :: v ++ [']'])
            (match jsonParse raw with
             | some w => some ((String.mk key, w), r4)
             | none => some ((String.mk key, .str raw), r4))
          | _ => none)
       | '\x7b' :: r3 =>
         let v := r3.takeWhile (fun c => c ≠ '\x7d')
         (match r3.drop v.length with
          | '\x7d' :: r4 =>
            let raw := String.mk ('\x7b' :: v ++ ['\x7d'])
            (match jsonParse raw with
             | some w => some ((String.mk key, w), r4)
             | none => some ((String.mk key, .str raw), r4))
          | _ => none)
       | _ =>
         match matchNumToken r2 with
         | some (numTok, r3) =>
           (match jsonParse (String.mk numTok) with
            | some w => some ((String.mk key, w), r3)
            | none => some ((String.mk key, .str (String.mk numTok)), r3))
         | none => none)
    | _ => none

/-- Set a property on an object field list: overwrite in place when the
key exists, append otherwise (JavaScript assignment order). -/
def objSet (fields : List (String × JVal)) (k : String) (v : JVal) : List (String × JVal) :=
  if fields.any (fun p => p.1 == k) then
    fields.map (fun p => if p.1 == k then (k, v) else p)
  else fields ++ [(k, v)]

/-- The stage-four extraction loop over the raw body text: collect all
key-value matches left to right into an object. -/
def extractKeyValues : Nat → List Char → List (String × JVal) → List (String × JVal)
  | 0, _, acc => acc
  | _ + 1, [], acc => acc
  | fuel + 1, c :: rest, acc =>
    match matchKeyValueAt (c :: rest) with
    | some ((k, v), r) => extractKeyValues fuel r (objSet acc k v)
    | none => extractKeyValues fuel rest acc

/-- The staged body parser of parseMessageWithCards (lines 404-459):
strict parse, then the cleaned text, then the ultra-cleaned text, then
key-value extraction. -/
def parseCardBody (body : List Char) : JVal :=
  match jsonParse (String.mk body) with
  | some v => v
  | none =>
    let cleaned := cleanJson body
    match jsonParse (String.mk cleaned) with
    | some v => v
    | none =>
      match jsonParse (String.mk (ultraCleanJson cleaned)) with
      | some v => v
      | none => .obj (extractKeyValues (body.length + 1) body [])

/-- JavaScript String.prototype.startsWith on the character lists. -/
def jsStartsWith (s pre : String) : Bool :=
  pre.data.isPrefixOf s.data

/-- JavaScript String.prototype.endsWith on the character lists. -/
def jsEndsWith (s suf : String) : Bool :=
  suf.data.isSuffixOf s.data

/-- The array-coercion pass of parseMessageWithCards (lines 462-476):
string properties that look like array literals are parsed in place
when possible. -/
def coerceArrayStrings (v : JVal) : JVal :=
  match v with
  | .obj fields =>
    .obj (fields.map (fun p =>
      match p.2 with
      | .str s =>
        if jsStartsWith (jsTrim s) "[" && jsEndsWith (jsTrim s) "]" then
          match jsonParse s with
          | some w => (p.1, w)
          | none => p
        else p
      | _ => p))
  | _ => v

/-- A part of a parsed message: prose text or a decoded card. -/
inductive MsgPart where
  | text (content : String) : MsgPart
  | card (cardType : String) (cardData : JVal) : MsgPart

/-- Whether a parsed card body is a nonempty object (the
Object.keys-length guard of line 478). -/
def hasKeys : JVal → Bool
  | .obj fields => !fields.isEmpty
  | _ => false

/-- Assemble the parts list from the scanned matches (the exec loop of
parseMessageWithCards lines 380-507): prose before each match, then the
card when its body parses to a nonempty object, else the matched text
verbatim; finally the prose after the last match. -/
def assembleParts (cs : List Char) (lastIndex : Nat) :
    List (Nat × String × List Char × Nat) → List MsgPart
  | [] =>
    if lastIndex < cs.length then
      [.text (String.mk ((cs.drop lastIndex).take (cs.length - lastIndex)))]
    else []
  | (i, t, body, len) :: rest =>
    let pre :=
      if lastIndex < i then [MsgPart.text (String.mk ((cs.drop lastIndex).take (i - lastIndex)))]
      else []
    let parsed := coerceArrayStrings (parseCardBody body)
    let this :=
      if parsed.truthy && hasKeys parsed then [MsgPart.card t parsed]
      else [MsgPart.text (String.mk ((cs.drop i).take len))]
    pre ++ this ++ assembleParts cs (i + len) rest

/-- Function parseMessageWithCards from the card parser (lines
363-510): an empty text yields a single empty text part; otherwise the
global card-pattern scan splits the text into prose and decoded
cards. -/
def parseMessageWithCards (s : String) : List MsgPart :=
  if s = "" then [.text ""]
  else assembleParts s.data 0 (scanCards (s.data.length + 1) s.data 0)

/-! ## Event frame reader (index.js lines 108-117)

Each chunk is split on newlines on its own; lines whose trimmed form
starts with the data prefix are kept, the six-character prefix of the
untrimmed line is dropped, and the remainder is JSON-parsed; a line
that fails to parse is skipped by the catch.  No partial trailing line
is carried over to the next chunk. -/

/-- The decoded records of one chunk. -/
def sseDecodeChunk (chunk : String) : List JVal :=
  ((splitNL chunk.data).filter
      (fun l => ("data: ").data.isPrefixOf (trimList l))).filterMap
    (fun l => jsonParse (String.mk (l.drop 6)))

/-- The decoded record sequence of a chunked stream. -/
def sseDecodeStream (chunks : List String) : List JVal :=
  (chunks.map sseDecodeChunk).flatten

/-! ## Card rendering for the round-trip property

A plain key-value object is rendered with the strict JSON of its data
between the card markers, as the round-trip property of the spec
prescribes. -/

/-- A plain scalar value of a card payload: a string, or a decimal
numeric literal given by its digits. -/
inductive CardLit where
  | str (s : String) : CardLit
  | num (neg : Bool) (intDigits fracDigits : List Char) : CardLit

/-- Strict JSON text of a scalar literal. -/
def renderLit : CardLit → List Char
  | .str s => '"' :: s.data ++ ['"']
  | .num neg intDigits fracDigits =>
    (if neg then ['-'] else []) ++ intDigits ++
      (if fracDigits.isEmpty then [] else '.' :: fracDigits)

/-- The value JSON.parse decodes a scalar literal to. -/
def litToJVal : CardLit → JVal
  | .str s => .str s
  | .num neg intDigits fracDigits =>
    let m : Int := (digitsToNat (intDigits ++ fracDigits) : Int)
    .num (if neg then -m else m) fracDigits.length

/-- Strict JSON text of the members of a plain object. -/
def renderFields : List (String × CardLit) → List Char
  | [] => []
  | [(k, v)] => '"' :: k.data ++ '"' :: ':' :: renderLit v
  | (k, v) :: p :: rest =>
    '"' :: k.data ++ '"' :: ':' :: renderLit v ++ ',' :: renderFields (p :: rest)

/-- Strict JSON text of a plain object. -/
def renderObjLit (flds : List (String × CardLit)) : List Char :=
  '\x7b' :: renderFields flds ++ ['\x7d']

/-- The encoding of the round-trip property: three colons, the type
tag, the strict JSON of the data, three colons. -/
def renderCard (t : String) (flds : List (String × CardLit)) : String :=
  String.mk ((":::").data ++ t.data ++ renderObjLit flds ++ (":::").data)

/-- The decoded object of a rendered plain payload. -/
def fieldsToJVal (flds : List (String × CardLit)) : JVal :=
  .obj (flds.map (fun p => (p.1, litToJVal p.2)))

/-- A well-formed object key: a nonempty word-character run. -/
def goodKey (k : String) : Prop :=
  k.data ≠ [] ∧ ∀ c ∈ k.data, isWordChar c = true

/-- A well-formed plain string value: printable characters free of
quotes, backslashes and braces, not shaped like an array literal. -/
def goodStrVal (s : String) : Prop :=
  (∀ c ∈ s.data, c ≠ '"' ∧ c ≠ '\\' ∧ c ≠ '\x7b' ∧ c ≠ '\x7d' ∧ 32 ≤ c.toNat) ∧
    jsStartsWith (jsTrim s) "[" = false

/-- A well-formed numeric literal: a nonempty integer digit run with no
redundant leading zero, and a fraction that is either absent or a
nonempty digit run. -/
def goodNum (intDigits fracDigits : List Char) : Prop :=
  intDigits ≠ [] ∧ (∀ c ∈ intDigits, c.isDigit = true) ∧
    (intDigits.headD ' ' = '0' → intDigits = ['0']) ∧
    (∀ c ∈ fracDigits, c.isDigit = true)

/-- Well-formedness of one scalar value. -/
def goodLit : CardLit → Prop
  | .str s => goodStrVal s
  | .num _ i f => goodNum i f

/-- A plain key-value payload: nonempty, distinct well-formed keys,
well-formed scalar values. -/
def goodFields (flds : List (String × CardLit)) : Prop :=
  flds ≠ [] ∧ (flds.map Prod.fst).Nodup ∧
    ∀ p ∈ flds, goodKey p.1 ∧ goodLit p.2

/-- A concrete well-formed card payload used by the round-trip
witness. -/
def sampleCardFields : List (String × CardLit) :=
  [("name", CardLit.str "Pizza Palace"), ("rating", CardLit.num false ['4'] ['2'])]

/-! ## Concrete sample values used by the verification -/

/-- A concrete completed record, as a tool_start followed by a tool_end
would leave it. -/
def sampleCompletedRecord : ToolRecord :=
  { id := some 0
    toolName := "get_restaurant_menu"
    status := .completed
    data := some "Received restaurant menu"
    originalData := none
    input := JVal.obj []
    output := JVal.str "first output"
    error := none
    origin := .fromToolStart }

/-- A reasoning thought carrying a leaked tool-use structure, as in
Scenario E. -/
def toolUseThought : String :=
  "Checking the menu.\x27, \x27type\x27: \x27tool_use\x27, \x27name\x27: \x27get_menu\x27"

/-! # Theorems -/

/-! ## Helper lemmas -/

/-- A member that fails the predicate survives dropWhile. -/
theorem mem_dropWhile_of_not {p : Char → Bool} {l : List Char} {c : Char}
    (hc : c ∈ l) (h : p c = false) : c ∈ l.dropWhile p := by
  induction l with
  | nil => cases hc
  | cons a as ih =>
    rw [List.dropWhile_cons]
    by_cases hp : p a
    · simp only [hp, if_true]
      rcases List.mem_cons.mp hc with rfl | h2
      · rw [hp] at h; cases h
      · exact ih h2
    · simp only [hp, if_false]
      exact hc

/-- A list containing a non-whitespace character trims to a nonempty
list. -/
theorem trimList_ne_nil {cs : List Char} {c : Char} (hc : c ∈ cs)
    (hw : jsWs c = false) : trimList cs ≠ [] := by
  intro h
  unfold trimList at h
  rw [List.reverse_eq_nil_iff, List.dropWhile_eq_nil_iff] at h
  have h1 : c ∈ List.dropWhile jsWs cs := mem_dropWhile_of_not hc hw
  have h2 : jsWs c = true := h c (List.mem_reverse.mpr h1)
  rw [hw] at h2
  cases h2

/-! ## C7: type-inference precedence of the structured-data decoder -/

/-- C7 (counterexample): the decoder typed by the spec's rule list
disagrees with the implementation on a payload carrying only
recommendation and flagged_issues, which only the implementation's
verification rule accepts. -/
theorem detect_differs_from_spec_rules :
    detectStructuredData recommendationPayload
      ≠ detectStructuredDataSpec recommendationPayload := by
  intro h
  exact JVal.noConfusion
    (show JVal.str "image_verification_result" = JVal.undefined from
      congrArg (fun v => JVal.get v "type") h)

/-- C7 (amended): the decoder applies the implementation's rule
predicates in exactly the flat first-match-wins precedence, returning
the raw payload when no rule matches; in particular the Pizza Hut
payload decodes as a restaurant. -/
theorem detect_follows_code_rules :
    (∀ d, detectStructuredData d = detectChain d) ∧
      detectStructuredData pizzaHutPayload = JVal.tagged "restaurant" pizzaHutPayload := by
  refine ⟨fun d => ?_, rfl⟩
  cases d <;>
    simp [detectStructuredData, detectChain, isEnvelopeShape, isVerificationShape,
      isRefundWorkflowShape, isRestaurantShape, isFoodItemShape, JVal.get, JVal.truthy,
      JVal.defined, JVal.hasOwn, JVal.isObjectType, JVal.tagged]

/-! ## C8: the never-blank guarantee of the reasoning normalizer -/

/-- C8 (counterexample): an empty raw thought is falsy, skips the whole
cleaning block, and is substituted verbatim — the placeholder is not
produced. -/
theorem clean_empty_thought_stays_empty :
    cleanReasoningThought "" 5 = "" ∧
      cleanReasoningThought "" 5 ≠ "Step " ++ natStr 5 := by
  refine ⟨rfl, by decide⟩

/-- C8 (amended): for every nonempty raw thought the cleaned thought is
never empty or whitespace-only, and whenever the cleaning pipeline
trims to nothing the Step placeholder is substituted. -/
theorem clean_nonempty_thought_never_blank (thought : String) (step : Nat)
    (h : thought ≠ "") :
    jsTrim (cleanReasoningThought thought step) ≠ "" ∧
      (trimList (cleanedThoughtCore thought) = [] →
        cleanReasoningThought thought step = "Step " ++ natStr step) := by
  unfold cleanReasoningThought
  rw [if_neg h]
  by_cases hc : trimList (cleanedThoughtCore thought) = []
  · rw [if_pos hc]
    refine ⟨?_, fun _ => rfl⟩
    intro habs
    have hdata : trimList ("Step " ++ natStr step).data = [] := by
      have h2 := congrArg String.data habs
      simpa [jsTrim] using h2
    have hmem : 'S' ∈ ("Step " ++ natStr step).data := by
      rw [String.data_append]
      exact List.mem_append.mpr (Or.inl (by decide))
    exact trimList_ne_nil hmem (by decide) hdata
  · rw [if_neg hc]
    refine ⟨?_, fun habs => absurd habs hc⟩
    intro habs
    have hdata : trimList (cleanedThoughtCore thought) = [] := by
      have h2 := congrArg String.data habs
      simpa [jsTrim] using h2
    exact hc hdata

/-! ## C10: whitespace-only messages are a complete no-op -/

/-- C10: when the trimmed message text is empty, sendMessage returns
the state unchanged — no user message, no request (the ghost request
counter is part of the state), and no change to loading, thinking,
tool-history or error state. -/
theorem sendMessage_blank_noop (live : LiveState) (messageText : String)
    (image : Option String) (events : List Event) (failure : Option (Nat × String))
    (h : jsTrim messageText = "") :
    sendMessage live messageText image events failure = live := by
  unfold sendMessage
  rw [if_pos h]

/-- C10 witness: a whitespace-only message leaves the initial state
untouched. -/
theorem sendMessage_blank_noop_witness :
    jsTrim "  " = "" ∧
      sendMessage initialLiveState "  " none [Event.message "hi"] none = initialLiveState :=
  ⟨by decide, sendMessage_blank_noop initialLiveState "  " none [Event.message "hi"] none
    (by decide)⟩

/-! ## C5: clearing mid-turn does not stop the in-flight turn -/

/-- C5 (the code at the failing input): clearMessages issues no abort,
so a turn in flight when the conversation is cleared still appends its
assistant message to the cleared list — the resulting history is
exactly that assistant message. -/
theorem clear_does_not_cancel_turn :
    (sendMessageWithClear initialLiveState "hi" [Event.message "hello"] 0).messages =
      [formatAgentResponse "hello" [] [] []] ∧
      (formatAgentResponse "hello" [] [] []).isUser = false := by
  exact ⟨rfl, rfl⟩

/-! ## C1: frame decoding depends on the transport chunking -/

/-- C1 (the code at the failing input): the same stream text decodes to
one message event when delivered whole, and to no event at all when the
line is split across two chunks, because each chunk is split into lines
on its own and no partial trailing line is buffered. -/
theorem sse_decode_chunking_dependent :
    ("data: \x7b\"type\":\"mes" ++ "sage\",\"data\":\"hi\"\x7d\n" : String) =
        "data: \x7b\"type\":\"message\",\"data\":\"hi\"\x7d\n" ∧
      sseDecodeStream ["data: \x7b\"type\":\"message\",\"data\":\"hi\"\x7d\n"] =
        [JVal.obj [("type", .str "message"), ("data", .str "hi")]] ∧
      sseDecodeStream ["data: \x7b\"type\":\"mes", "sage\",\"data\":\"hi\"\x7d\n"] = [] := by
  refine ⟨rfl, rfl, rfl⟩

/-! ## C2: records do transition out of completed -/

/-- C2 (counterexample): a second tool_end arriving while the most
recent record is already completed overwrites that record (its output
changes) and appends nothing: the timeline keeps length one and its
sole record no longer carries the old output. -/
theorem second_tool_end_overwrites :
    ((processToolEnd (JVal.str "second output") none none
        [sampleCompletedRecord]).1.map (fun t => t.output)) = [JVal.str "second output"] ∧
      ((processToolEnd (JVal.str "second output") none none
        [sampleCompletedRecord]).1.length = 1) ∧
      JVal.str "second output" ≠ sampleCompletedRecord.output := by
  refine ⟨rfl, rfl, ?_⟩
  intro h
  have h2 : ("second output" : String) = "first output" := by
    injection h
  exact absurd h2 (by decide)

/-- C2 (amended): a tool_end always retargets the most recent record of
the timeline regardless of its status: the record is overwritten in
place — status set to completed, display data recomputed, output
replaced, all identifying fields kept — no other record changes, and no
standalone record is appended. -/
theorem tool_end_overwrites_last (output : JVal) (dataStr toolName : Option String)
    (hist : List ToolRecord) (lastTool : ToolRecord)
    (h : hist.getLast? = some lastTool) :
    ((processToolEnd output dataStr toolName hist).1.length = hist.length) ∧
      ((processToolEnd output dataStr toolName hist).1.dropLast = hist.dropLast) ∧
      ((processToolEnd output dataStr toolName hist).1.getLast? =
        some { lastTool with
            status := .completed
            data :=
              match getToolCompletionMessage lastTool.toolName lastTool.input output with
              | some m => if m ≠ "" then some m else dataStr
              | none => dataStr
            output := output }) := by
  have hne : hist ≠ [] := by
    intro habs
    rw [habs] at h
    cases h
  unfold processToolEnd
  rw [h]
  refine ⟨?_, ?_, ?_⟩
  · simp only [List.length_append, List.length_dropLast, List.length_cons,
      List.length_nil]
    have h1 : 1 ≤ hist.length := List.length_pos.mpr hne
    omega
  · simp [List.dropLast_concat]
  · simp [List.getLast?_concat]

/-- C2 witness: the amended overwrite behaviour at a concrete
single-record timeline. -/
theorem tool_end_overwrites_last_witness :
    ([sampleCompletedRecord].getLast? = some sampleCompletedRecord) ∧
      ((processToolEnd (JVal.str "second output") none none
        [sampleCompletedRecord]).1.length = [sampleCompletedRecord].length) :=
  ⟨rfl,
   (tool_end_overwrites_last (JVal.str "second output") none none
     [sampleCompletedRecord] sampleCompletedRecord rfl).1⟩


/-! ## C3: tool_end and tool_error with no open record -/

/-- C3 (counterexample): a tool_end arriving on an empty timeline
appends nothing to the timeline — no synthetic standalone record is
created there (only the live view receives one). -/
theorem tool_end_empty_timeline_appends_nothing :
    (processToolEnd (JVal.obj []) none none []).1 = [] := by
  rfl

/-- C3 (amended): with no open record, a tool_error appends a synthetic
standalone Unknown-Tool error record and a tool_end leaves the timeline
untouched while the live view gets a standalone completed record; no
exception arises and the turn still finalizes into a message (shown on
a concrete turn whose stream carries a tool_error with no preceding
tool_start). -/
theorem tool_events_without_open_record (output : JVal) (thinking errText : String)
    (dataStr toolName : Option String)
    (h : extractAfterLit errText.data "Error executing " = none) :
    ((processToolError (some errText) output none [] thinking).1 =
        [{ id := none
           toolName := "Unknown Tool"
           status := .error
           data := none
           originalData := none
           input := JVal.undefined
           output := output
           error := some errText
           origin := .fromToolError }]) ∧
      ((processToolEnd output dataStr toolName []).1 = []) ∧
      ((processToolEnd output dataStr toolName []).2.status = .completed) ∧
      ((sendMessage initialLiveState "hi" none
          [Event.tool_error (some "boom") JVal.undefined none,
           Event.message "Sorry about that"] none).messages.map
          (fun m => (m.text, m.toolHistory.map (fun r => (r.toolName, r.status))))) =
        [("hi", []), ("Sorry about that", [("Unknown Tool", ToolStatus.error)])] := by
  refine ⟨?_, ?_, ?_, ?_⟩
  · simp [processToolError, toolErrorName, toolErrorNameFallback, h]
  · simp [processToolEnd]
  · simp [processToolEnd]
  · rfl

/-- C3 witness: the amended behaviour at a concrete error text without
the Error-executing pattern. -/
theorem tool_events_without_open_record_witness :
    (extractAfterLit ("boom").data "Error executing " = none) ∧
      ((processToolError (some "boom") (JVal.obj []) none [] "").1 =
        [{ id := none
           toolName := "Unknown Tool"
           status := .error
           data := none
           originalData := none
           input := JVal.undefined
           output := JVal.obj []
           error := some "boom"
           origin := .fromToolError }]) :=
  ⟨rfl,
   (tool_events_without_open_record (JVal.obj []) "" "boom" none none rfl).1⟩

/-! ## C6: a message is appended exactly when something accumulated -/

/-- No event handler touches the message list: processing any event
leaves the messages state unchanged. -/
theorem processEvent_messages (tl : TurnLocal) (live : LiveState) (ev : Event) :
    ((processEvent tl live ev).2).messages = live.messages := by
  cases ev <;> simp only [processEvent] <;> (repeat' split) <;> rfl

/-- Running a whole event list leaves the messages state unchanged. -/
theorem runEvents_messages (events : List Event) :
    ∀ tl live, ((runEvents tl live events).2).messages = live.messages := by
  induction events with
  | nil => intro tl live; rfl
  | cons ev rest ih =>
    intro tl live
    show ((runEvents (processEvent tl live ev).1 (processEvent tl live ev).2 rest).2).messages
        = live.messages
    rw [ih, processEvent_messages]

/-- C6: on a completed stream, an assistant message is appended exactly
when the accumulated response text, structured items or reasoning steps
are nonempty (then the history grows by the user message and the
assistant message); when all three accumulators are empty, only the
user message was appended and the finalization appends nothing. -/
theorem assistant_message_iff_accumulated (live : LiveState) (messageText : String)
    (image : Option String) (events : List Event) (h : jsTrim messageText ≠ "") :
    ((sendMessage live messageText image events none).messages.length =
        live.messages.length + 2 ↔
      ((runEvents (initTurnLocal live)
          { live with
              messages := live.messages ++ [formatUserMessage messageText image]
              isLoading := true
              thinking := ""
              error := none
              requestsSent := live.requestsSent + 1 } events).1.responseText ≠ "" ∨
        (runEvents (initTurnLocal live)
          { live with
              messages := live.messages ++ [formatUserMessage messageText image]
              isLoading := true
              thinking := ""
              error := none
              requestsSent := live.requestsSent + 1 } events).1.structuredDataItems ≠ [] ∨
        (runEvents (initTurnLocal live)
          { live with
              messages := live.messages ++ [formatUserMessage messageText image]
              isLoading := true
              thinking := ""
              error := none
              requestsSent := live.requestsSent + 1 } events).1.reasoningSteps ≠ [])) ∧
      (¬ ((runEvents (initTurnLocal live)
            { live with
                messages := live.messages ++ [formatUserMessage messageText image]
                isLoading := true
                thinking := ""
                error := none
                requestsSent := live.requestsSent + 1 } events).1.responseText ≠ "" ∨
          (runEvents (initTurnLocal live)
            { live with
                messages := live.messages ++ [formatUserMessage messageText image]
                isLoading := true
                thinking := ""
                error := none
                requestsSent := live.requestsSent + 1 } events).1.structuredDataItems ≠ [] ∨
          (runEvents (initTurnLocal live)
            { live with
                messages := live.messages ++ [formatUserMessage messageText image]
                isLoading := true
                thinking := ""
                error := none
                requestsSent := live.requestsSent + 1 } events).1.reasoningSteps ≠ []) →
        (sendMessage live messageText image events none).messages =
          live.messages ++ [formatUserMessage messageText image]) := by
  unfold sendMessage
  rw [if_neg h]
  simp only []
  constructor
  · unfold finalizeTurn
    by_cases hc :
        (runEvents (initTurnLocal live)
          { live with
              messages := live.messages ++ [formatUserMessage messageText image]
              isLoading := true
              thinking := ""
              error := none
              requestsSent := live.requestsSent + 1 } events).1.responseText ≠ "" ∨
        (runEvents (initTurnLocal live)
          { live with
              messages := live.messages ++ [formatUserMessage messageText image]
              isLoading := true
              thinking := ""
              error := none
              requestsSent := live.requestsSent + 1 } events).1.structuredDataItems ≠ [] ∨
        (runEvents (initTurnLocal live)
          { live with
              messages := live.messages ++ [formatUserMessage messageText image]
              isLoading := true
              thinking := ""
              error := none
              requestsSent := live.requestsSent + 1 } events).1.reasoningSteps ≠ []
    · rw [if_pos (by
        rcases hc with hc | hc | hc
        · simp [hc]
        · simp [List.isEmpty_iff, hc]
        · simp [List.isEmpty_iff, hc])]
      simp only [runEvents_messages]
      constructor
      · intro _; exact hc
      · intro _
        simp [runEvents_messages]
    · rw [if_neg (by
        push_neg at hc
        simp [hc.1, hc.2.1, hc.2.2, List.isEmpty_iff])]
      constructor
      · intro habs
        exfalso
        simp [runEvents_messages] at habs
      · intro h2; exact absurd h2 hc
  · intro hc
    push_neg at hc
    unfold finalizeTurn
    rw [if_neg (by simp [hc.1, hc.2.1, hc.2.2, List.isEmpty_iff])]
    simp [runEvents_messages]

/-- C6 witness: at a concrete empty stream nothing accumulates and only
the user message is appended. -/
theorem assistant_message_iff_accumulated_witness :
    (jsTrim "hello" ≠ "") ∧
      ((sendMessage initialLiveState "hello" none [] none).messages =
        initialLiveState.messages ++ [formatUserMessage "hello" none]) :=
  ⟨by decide,
   (assistant_message_iff_accumulated initialLiveState "hello" none [] (by decide)).2
     (by intro hc; rcases hc with hc | hc | hc <;> exact hc rfl)⟩

/-- C8 witness: a whitespace-only (but nonempty) thought cleans to the
Step placeholder, which is not blank. -/
theorem clean_nonempty_thought_never_blank_witness :
    (("   " : String) ≠ "") ∧
      jsTrim (cleanReasoningThought "   " 4) ≠ "" ∧
      (trimList (cleanedThoughtCore "   ") = [] →
        cleanReasoningThought "   " 4 = "Step " ++ natStr 4) :=
  ⟨by decide,
   (clean_nonempty_thought_never_blank "   " 4 (by decide)).1,
   (clean_nonempty_thought_never_blank "   " 4 (by decide)).2⟩

/-! ## C9: preliminary reasoning-derived records and persistence -/

/-- C9 (counterexample): a turn that synthesizes a preliminary record
from reasoning text and then dies on a transport error leaves the
record in the live tool-history state without a reset; the next
successful turn seeds its timeline from that state, so the
reasoning-derived record is persisted into the next assistant message's
tool history. -/
theorem prelim_record_leaks_into_message :
    ((sendMessage
        (sendMessage initialLiveState "a" none
          [Event.reasoning_step 1 toolUseThought] (some (1, "network error")))
        "b" none [Event.message "hi"] none).messages.map
        (fun m => m.toolHistory.map (fun r => r.origin))) =
      [[], [], [], [RecOrigin.fromReasoning]] := by
  rfl

/-- The last record of a list is a member. -/
theorem mem_of_getLast?_eq_some {l : List ToolRecord} {a : ToolRecord}
    (h : l.getLast? = some a) : a ∈ l := by
  induction l with
  | nil => cases h
  | cons x xs ih =>
    cases xs with
    | nil =>
      simp only [List.getLast?_singleton, Option.some.injEq] at h
      simp [h]
    | cons y ys =>
      rw [List.getLast?_cons_cons] at h
      exact List.mem_cons_of_mem x (ih h)

/-- Members of dropLast are members. -/
theorem mem_of_mem_dropLast {l : List ToolRecord} {a : ToolRecord}
    (h : a ∈ l.dropLast) : a ∈ l :=
  (List.dropLast_sublist l).mem h

/-- Processing one event preserves the absence of reasoning-derived
records in the turn-local timeline: a reasoning_step only touches the
live state, and the four formal handlers only append or overwrite with
their own origins. -/
theorem processEvent_no_reasoning_in_timeline (tl : TurnLocal) (live : LiveState)
    (ev : Event)
    (h : tl.currentToolHistory.all (fun r => r.origin != RecOrigin.fromReasoning) = true) :
    ((processEvent tl live ev).1.currentToolHistory.all
      (fun r => r.origin != RecOrigin.fromReasoning)) = true := by
  cases ev with
  | thinking s => exact h
  | message s => exact h
  | structured_data p =>
    simp only [processEvent]
    split <;> exact h
  | done cid =>
    simp only [processEvent]
    (repeat' split) <;> exact h
  | reasoning_step step thought =>
    simp only [processEvent]
    exact h
  | agent_action toolName input dataStr =>
    simp only [processEvent]
    split
    · rename_i hist newTool heq
      unfold processAgentAction at heq
      (repeat' split at heq) <;> (try cases heq) <;>
        simp_all [List.all_append]
    · rename_i hist heq
      unfold processAgentAction at heq
      (repeat' split at heq) <;> (try cases heq) <;> simp_all
  | tool_start toolName input dataStr =>
    simp only [processEvent]
    simp only [processToolStart]
    simp [List.all_append, h]
  | tool_end output dataStr toolName =>
    simp only [processEvent]
    unfold processToolEnd
    split
    · rename_i lastTool hlast
      have hmem : lastTool ∈ tl.currentToolHistory := mem_of_getLast?_eq_some hlast
      have hlastok : (lastTool.origin != RecOrigin.fromReasoning) = true :=
        List.all_eq_true.mp h lastTool hmem
      simp only [List.all_append, List.all_cons, List.all_nil, Bool.and_true,
        Bool.and_eq_true]
      refine ⟨?_, hlastok⟩
      exact List.all_eq_true.mpr
        (fun r hr => List.all_eq_true.mp h r (mem_of_mem_dropLast hr))
    · exact h
  | tool_error dataStr output toolName =>
    simp only [processEvent]
    unfold processToolError
    split
    · rename_i lastTool hlast
      have hmem : lastTool ∈ tl.currentToolHistory := mem_of_getLast?_eq_some hlast
      have hlastok : (lastTool.origin != RecOrigin.fromReasoning) = true :=
        List.all_eq_true.mp h lastTool hmem
      simp only [List.all_append, List.all_cons, List.all_nil, Bool.and_true,
        Bool.and_eq_true]
      refine ⟨?_, hlastok⟩
      exact List.all_eq_true.mpr
        (fun r hr => List.all_eq_true.mp h r (mem_of_mem_dropLast hr))
    · simp

/-- The invariant over a whole event list. -/
theorem runEvents_no_reasoning_in_timeline (events : List Event) :
    ∀ tl live,
      tl.currentToolHistory.all (fun r => r.origin != RecOrigin.fromReasoning) = true →
      ((runEvents tl live events).1.currentToolHistory.all
        (fun r => r.origin != RecOrigin.fromReasoning)) = true := by
  induction events with
  | nil => intro tl live h; exact h
  | cons ev rest ih =>
    intro tl live h
    exact ih (processEvent tl live ev).1 (processEvent tl live ev).2
      (processEvent_no_reasoning_in_timeline tl live ev h)

/-- C9 (amended): within one turn, a reasoning-step event never touches
the turn-local timeline (shown by the invariant lemma the proof runs
on), so when the live tool-history seed and the prior messages carry no
reasoning-derived record, no persisted message of the completed turn
carries one either; a reasoning-derived record can only be persisted by
leaking through the live state out of a turn aborted by a transport
error. -/
theorem prelim_records_stay_live (live : LiveState) (messageText : String)
    (image : Option String) (events : List Event)
    (h1 : live.toolHistory.all (fun r => r.origin != RecOrigin.fromReasoning) = true)
    (h2 : live.messages.all
      (fun m => m.toolHistory.all (fun r => r.origin != RecOrigin.fromReasoning)) = true) :
    ((sendMessage live messageText image events none).messages.all
      (fun m => m.toolHistory.all (fun r => r.origin != RecOrigin.fromReasoning))) = true := by
  unfold sendMessage
  by_cases hblank : jsTrim messageText = ""
  · rw [if_pos hblank]
    exact h2
  · rw [if_neg hblank]
    simp only []
    unfold finalizeTurn
    have hseed : (initTurnLocal live).currentToolHistory.all
        (fun r => r.origin != RecOrigin.fromReasoning) = true := h1
    have hinv := runEvents_no_reasoning_in_timeline events (initTurnLocal live)
      { live with
          messages := live.messages ++ [formatUserMessage messageText image]
          isLoading := true
          thinking := ""
          error := none
          requestsSent := live.requestsSent + 1 } hseed
    split
    · simp only [runEvents_messages, List.all_append, List.all_cons, List.all_nil,
        Bool.and_true, Bool.and_eq_true]
      refine ⟨⟨h2, ?_⟩, ?_⟩
      · rfl
      · simpa [formatAgentResponse] using hinv
    · simp only [runEvents_messages, List.all_append, List.all_cons, List.all_nil,
        Bool.and_true, Bool.and_eq_true]
      exact ⟨h2, rfl⟩

/-- C9 witness: the amended guarantee at a concrete turn carrying a
reasoning step with leaked tool-use structure: the finished message's
tool history stays free of reasoning-derived records. -/
theorem prelim_records_stay_live_witness :
    (initialLiveState.toolHistory.all
        (fun r => r.origin != RecOrigin.fromReasoning) = true) ∧
      (initialLiveState.messages.all
        (fun m => m.toolHistory.all (fun r => r.origin != RecOrigin.fromReasoning)) = true) ∧
      ((sendMessage initialLiveState "b" none
          [Event.reasoning_step 1 toolUseThought, Event.message "hi"] none).messages.all
        (fun m => m.toolHistory.all (fun r => r.origin != RecOrigin.fromReasoning))) = true :=
  ⟨rfl, rfl,
   prelim_records_stay_live initialLiveState "b" none
     [Event.reasoning_step 1 toolUseThought, Event.message "hi"] rfl rfl⟩

/-! ## C4: card round-trip -/

/-- Word characters are printable and are not quotes, backslashes or
braces. -/
theorem isWordChar_props {c : Char} (h : isWordChar c = true) :
    c ≠ '"' ∧ c ≠ '\\' ∧ c ≠ '\x7b' ∧ c ≠ '\x7d' ∧ 32 ≤ c.toNat := by
  refine ⟨?_, ?_, ?_, ?_, ?_⟩
  · intro he; rw [he] at h; exact absurd h (by decide)
  · intro he; rw [he] at h; exact absurd h (by decide)
  · intro he; rw [he] at h; exact absurd h (by decide)
  · intro he; rw [he] at h; exact absurd h (by decide)
  · unfold isWordChar at h
    rcases Bool.or_eq_true_iff.mp h with h1 | h2
    · rcases Bool.or_eq_true_iff.mp h1 with ha | hd
      · unfold Char.isAlpha at ha
        rcases Bool.or_eq_true_iff.mp ha with hu | hl
        · unfold Char.isUpper at hu
          simp only [Bool.and_eq_true, decide_eq_true_eq] at hu
          have h2 : (65 : UInt32).toNat ≤ c.val.toNat := hu.1
          have h3 : (65 : UInt32).toNat = 65 := rfl
          unfold Char.toNat
          omega
        · unfold Char.isLower at hl
          simp only [Bool.and_eq_true, decide_eq_true_eq] at hl
          have h2 : (97 : UInt32).toNat ≤ c.val.toNat := hl.1
          have h3 : (97 : UInt32).toNat = 97 := rfl
          unfold Char.toNat
          omega
      · unfold Char.isDigit at hd
        simp only [Bool.and_eq_true, decide_eq_true_eq] at hd
        have h2 : (48 : UInt32).toNat ≤ c.val.toNat := hd.1
        have h3 : (48 : UInt32).toNat = 48 := rfl
        unfold Char.toNat
        omega
    · rw [decide_eq_true_eq] at h2
      rw [h2]
      decide

/-- Digits are not quotes, backslashes, braces, dots or commas and are
printable. -/
theorem isDigit_props {c : Char} (h : c.isDigit = true) :
    c ≠ '"' ∧ c ≠ '\\' ∧ c ≠ '\x7b' ∧ c ≠ '\x7d' ∧ 32 ≤ c.toNat := by
  refine ⟨?_, ?_, ?_, ?_, ?_⟩
  · intro he; rw [he] at h; exact absurd h (by decide)
  · intro he; rw [he] at h; exact absurd h (by decide)
  · intro he; rw [he] at h; exact absurd h (by decide)
  · intro he; rw [he] at h; exact absurd h (by decide)
  · unfold Char.isDigit at h
    simp only [Bool.and_eq_true, decide_eq_true_eq] at h
    have h2 : (48 : UInt32).toNat ≤ c.val.toNat := h.1
    have h3 : (48 : UInt32).toNat = 48 := rfl
    unfold Char.toNat
    omega

/-- The rendered scalar literal of a well-formed value contains no
brace. -/
theorem renderLit_no_brace {v : CardLit} (hv : goodLit v) :
    ∀ c ∈ renderLit v, c ≠ '\x7b' ∧ c ≠ '\x7d' := by
  intro c hc
  cases v with
  | str s =>
    simp only [renderLit, List.mem_cons, List.mem_append] at hc
    rcases hc with (rfl | hc) | (rfl | hc)
    · exact ⟨by decide, by decide⟩
    · have h2 := hv.1 c hc
      exact ⟨h2.2.2.1, h2.2.2.2.1⟩
    · exact ⟨by decide, by decide⟩
    · cases hc
  | num neg ids fds =>
    simp only [renderLit, List.mem_append] at hc
    rcases hc with (hc | hc) | hc
    · split at hc
      · simp only [List.mem_singleton] at hc
        subst hc
        exact ⟨by decide, by decide⟩
      · cases hc
    · have hd := hv.2.1 c hc
      exact ⟨(isDigit_props hd).2.2.1, (isDigit_props hd).2.2.2.1⟩
    · split at hc
      · cases hc
      · simp only [List.mem_cons] at hc
        rcases hc with rfl | hc
        · exact ⟨by decide, by decide⟩
        · have hd := hv.2.2.2 c hc
          exact ⟨(isDigit_props hd).2.2.1, (isDigit_props hd).2.2.2.1⟩

/-- The rendered member list of a well-formed payload contains no
brace. -/
theorem renderFields_no_brace {flds : List (String × CardLit)}
    (hf : ∀ p ∈ flds, goodKey p.1 ∧ goodLit p.2) :
    ∀ c ∈ renderFields flds, c ≠ '\x7b' ∧ c ≠ '\x7d' := by
  induction flds with
  | nil => intro c hc; cases hc
  | cons kv tail ih =>
    intro c hc
    obtain ⟨k, v⟩ := kv
    have hkv := hf (k, v) (List.mem_cons_self _ _)
    have hkey : ∀ c ∈ k.data, c ≠ '\x7b' ∧ c ≠ '\x7d' := by
      intro c2 hc2
      have h2 := isWordChar_props (hkv.1.2 c2 hc2)
      exact ⟨h2.2.2.1, h2.2.2.2.1⟩
    cases tail with
    | nil =>
      simp only [renderFields, List.mem_cons, List.mem_append] at hc
      rcases hc with (rfl | hc) | (rfl | rfl | hc)
      · exact ⟨by decide, by decide⟩
      · exact hkey c hc
      · exact ⟨by decide, by decide⟩
      · exact ⟨by decide, by decide⟩
      · exact renderLit_no_brace hkv.2 c hc
    | cons p rest =>
      simp only [renderFields, List.mem_cons, List.mem_append] at hc
      rcases hc with ((rfl | hc) | (rfl | rfl | hc)) | (rfl | hc)
      · exact ⟨by decide, by decide⟩
      · exact hkey c hc
      · exact ⟨by decide, by decide⟩
      · exact ⟨by decide, by decide⟩
      · exact renderLit_no_brace hkv.2 c hc
      · exact ⟨by decide, by decide⟩
      · exact ih (fun q hq => hf q (List.mem_cons_of_mem _ hq)) c hc

/-- Stepping the outermost starred group over a non-brace character. -/
theorem braceStar1_cons_other (f : Nat) (c : Char) (r : List Char)
    (h1 : c ≠ '\x7d') (h2 : c ≠ '\x7b') :
    braceStar1 (f + 1) (c :: r) =
      match braceStar1 f r with
      | some (cc, rr) => some (c :: cc, rr)
      | none => none := by
  conv_lhs => rw [braceStar1.eq_def]
  split
  all_goals first
    | omega
    | (exact absurd rfl h1)
    | (exact absurd rfl h2)
    | simp_all

/-- The outermost starred group of the card pattern consumes a
brace-free content run up to and including the closing brace. -/
theorem braceStar1_content (content : List Char) :
    ∀ fuel rest, content.length < fuel →
      (∀ c ∈ content, c ≠ '\x7b' ∧ c ≠ '\x7d') →
      braceStar1 fuel (content ++ '\x7d' :: rest) = some (content ++ ['\x7d'], rest) := by
  induction content with
  | nil =>
    intro fuel rest hf _
    cases fuel with
    | zero => exact absurd hf (by omega)
    | succ f => rfl
  | cons c cs ih =>
    intro fuel rest hf hnb
    have hc := hnb c (List.mem_cons_self _ _)
    cases fuel with
    | zero => exact absurd hf (by omega)
    | succ f =>
      rw [show ((c :: cs) ++ '\x7d' :: rest) = c :: (cs ++ '\x7d' :: rest) from rfl]
      rw [braceStar1_cons_other f c _ hc.2 hc.1]
      rw [ih f rest (by simpa using Nat.lt_of_succ_lt_succ hf)
        (fun x hx => hnb x (List.mem_cons_of_mem _ hx))]
      rfl

/-- The JSON string-body parser consumes an escape-free printable run
up to the closing quote. -/
theorem jparseStringAux_append (s : List Char) :
    ∀ acc rest, (∀ c ∈ s, c ≠ '"' ∧ c ≠ '\\' ∧ 32 ≤ c.toNat) →
      jparseStringAux (s ++ '"' :: rest) acc =
        some (String.mk (acc.reverse ++ s), rest) := by
  induction s with
  | nil =>
    intro acc rest _
    simp [jparseStringAux]
  | cons c cs ih =>
    intro acc rest hs
    have hc := hs c (List.mem_cons_self _ _)
    have hstep : jparseStringAux ((c :: cs) ++ '"' :: rest) acc =
        jparseStringAux (cs ++ '"' :: rest) (c :: acc) := by
      conv_lhs => rw [jparseStringAux.eq_def]
      split
      all_goals first
        | (exact absurd rfl hc.1)
        | (exact absurd rfl hc.2.1)
        | simp_all
    rw [hstep, ih (c :: acc) rest (fun x hx => hs x (List.mem_cons_of_mem _ hx))]
    simp

/-- takeWhile of a digit run followed by a non-digit boundary is the
run itself. -/
theorem takeWhile_digits_append (ds : List Char) (rest : List Char)
    (hd : ∀ c ∈ ds, c.isDigit = true) (hr : (rest.headD 'x').isDigit = false) :
    (ds ++ rest).takeWhile Char.isDigit = ds := by
  induction ds with
  | nil =>
    cases rest with
    | nil => rfl
    | cons r rs =>
      simp only [List.nil_append, List.takeWhile_cons]
      simp only [List.headD_cons] at hr
      rw [hr]
      simp
  | cons a as ih =>
    simp only [List.cons_append, List.takeWhile_cons, hd a (List.mem_cons_self _ _)]
    rw [ih (fun c hc => hd c (List.mem_cons_of_mem _ hc))]
    simp

/-- A digit is not a minus sign. -/
theorem digit_ne_minus {c : Char} (h : c.isDigit = true) : c ≠ '-' := by
  intro he; rw [he] at h; exact absurd h (by decide)

/-- A number head that is not a minus parses with the positive sign. -/
theorem jparseNumber_not_minus (i : Char) (tail : List Char) (h : i ≠ '-') :
    jparseNumber (i :: tail) = jparseNumAbs false (i :: tail) := by
  conv_lhs => rw [jparseNumber.eq_def]
  split
  · rename_i heq
    exact absurd (List.cons.inj heq).1 h
  · rfl

/-- Dropping the length of a leading run from its flattened cons-append
form. -/
theorem drop_cons_append (i : Char) (is X : List Char) :
    List.drop (i :: is).length (i :: (is ++ X)) = X := by
  simp only [List.length_cons, List.drop_succ_cons, List.drop_left]

/-- The sign-free number parser consumes a rendered decimal literal up
to a boundary that is neither a digit nor a dot. -/
theorem jparseNumAbs_render (neg : Bool) (ids fds : List Char) (d : Char)
    (rest : List Char) (hn : goodNum ids fds) (hd1 : d.isDigit = false)
    (hd2 : d ≠ '.') :
    jparseNumAbs neg
        (ids ++ (if fds.isEmpty then [] else '.' :: fds) ++ d :: rest) =
      some (.num (if neg then -(digitsToNat (ids ++ fds) : Int)
                  else (digitsToNat (ids ++ fds) : Int)) fds.length,
            d :: rest) := by
  obtain ⟨hne, hdig, hzero, hfdig⟩ := hn
  cases ids with
  | nil => exact absurd rfl hne
  | cons i is =>
    have hi : i.isDigit = true := hdig i (List.mem_cons_self _ _)
    cases fds with
    | nil =>
      simp only [List.isEmpty_nil, if_true, List.nil_append, List.append_nil]
      have htake : ((i :: is) ++ d :: rest).takeWhile Char.isDigit = i :: is :=
        takeWhile_digits_append (i :: is) _ hdig (by simpa using hd1)
      by_cases hi0 : i = '0'
      · subst hi0
        have his : is = [] := by
          have h2 := hzero (by simp)
          exact (List.cons.inj h2).2
        subst his
        unfold jparseNumAbs
        simp only [List.cons_append, List.nil_append]
        simp [hd1]
        split
        · rename_i fr heq
          exact absurd (List.cons.inj heq).1 hd2
        · rfl
      · unfold jparseNumAbs
        simp only [List.cons_append]
        rw [hi]
        simp only [Bool.not_true, Bool.false_eq_true, if_false, if_neg hi0]
        simp only [List.cons_append] at htake
        rw [htake, drop_cons_append]
        simp only [List.headD_cons, hd1, Bool.and_false, Bool.false_eq_true, if_false]
        split
        · rename_i fr heq
          exact absurd (List.cons.inj heq).1 hd2
        · rfl
    | cons f fs =>
      simp only [List.isEmpty_cons, Bool.false_eq_true, if_false]
      have hf0 : f.isDigit = true := hfdig f (List.mem_cons_self _ _)
      have hfr : ((f :: fs) ++ d :: rest).takeWhile Char.isDigit = f :: fs :=
        takeWhile_digits_append (f :: fs) _ hfdig (by simpa using hd1)
      have htake : ((i :: is) ++ ('.' :: ((f :: fs) ++ d :: rest))).takeWhile Char.isDigit
          = i :: is :=
        takeWhile_digits_append (i :: is) _ hdig (by simp)
      simp only [List.cons_append, List.append_assoc] at hfr htake
      by_cases hi0 : i = '0'
      · subst hi0
        have his : is = [] := by
          have h2 := hzero (by simp)
          exact (List.cons.inj h2).2
        subst his
        unfold jparseNumAbs
        simp only [List.cons_append, List.nil_append, List.append_assoc]
        simp [hfr, hf0, drop_cons_append]
      · unfold jparseNumAbs
        simp only [List.cons_append, List.append_assoc]
        rw [hi]
        simp only [Bool.not_true, Bool.false_eq_true, if_false, if_neg hi0]
        rw [htake, drop_cons_append]
        simp [hi0, hfr, hf0, drop_cons_append]

/-- skipWs over a non-whitespace head is the identity. -/
theorem skipWs_cons_not {c : Char} (l : List Char)
    (h : (c = ' ' || c = '\t' || c = '\n' || c = '\r') = false) :
    skipWs (c :: l) = c :: l := by
  simp only [skipWs, List.dropWhile_cons, h]
  simp

/-- A digit head is not JSON whitespace. -/
theorem digit_not_jsonws {c : Char} (h : c.isDigit = true) :
    (c = ' ' || c = '\t' || c = '\n' || c = '\r') = false := by
  by_contra habs
  rcases Bool.or_eq_true_iff.mp (Bool.of_not_eq_false habs) with h1 | h2
  · rcases Bool.or_eq_true_iff.mp h1 with h3 | h4
    · rcases Bool.or_eq_true_iff.mp h3 with h5 | h6
      · rw [decide_eq_true_eq] at h5; rw [h5] at h; exact absurd h (by decide)
      · rw [decide_eq_true_eq] at h6; rw [h6] at h; exact absurd h (by decide)
    · rw [decide_eq_true_eq] at h4; rw [h4] at h; exact absurd h (by decide)
  · rw [decide_eq_true_eq] at h2; rw [h2] at h; exact absurd h (by decide)

/-- String.mk is a left inverse of data. -/
theorem stringMk_data (s : String) : String.mk s.data = s := by
  cases s
  rfl

/-- A digit character is one of the ten digit literals. -/
theorem digit_cases {c : Char} (h : c.isDigit = true) :
    c = '0' ∨ c = '1' ∨ c = '2' ∨ c = '3' ∨ c = '4' ∨ c = '5' ∨ c = '6' ∨ c = '7'
      ∨ c = '8' ∨ c = '9' := by
  unfold Char.isDigit at h
  simp only [Bool.and_eq_true, decide_eq_true_eq] at h
  have h1 : (48 : UInt32).toNat ≤ c.val.toNat := h.1
  have h2 : c.val.toNat ≤ (57 : UInt32).toNat := h.2
  have h3 : (48 : UInt32).toNat = 48 := rfl
  have h4 : (57 : UInt32).toNat = 57 := rfl
  rw [h3] at h1
  rw [h4] at h2
  have hc : Char.ofNat c.toNat = c := Char.ofNat_toNat c
  have htn : c.toNat = c.val.toNat := rfl
  interval_cases hn : c.val.toNat <;>
    · rw [← hc, htn]
      decide

/-- The top-level value parser on a digit-headed input defers to the
number parser. -/
theorem jparseGo_top_digit (fuel : Nat) (c : Char) (l : List Char)
    (h : c.isDigit = true) :
    jparseGo (fuel + 1) .top (c :: l) = jparseNumber (c :: l) := by
  rcases digit_cases h with rfl | rfl | rfl | rfl | rfl | rfl | rfl | rfl | rfl | rfl <;>
    rfl

/-- The top-level JSON value parser consumes a rendered scalar literal
up to a comma or closing-brace boundary. -/
theorem jparseGo_top_renderLit (v : CardLit) (hv : goodLit v) (d : Char)
    (rest : List Char) (hd : d = ',' ∨ d = '\x7d') (fuel : Nat) :
    jparseGo (fuel + 1) .top (renderLit v ++ d :: rest) =
      some (litToJVal v, d :: rest) := by
  have hdnotdigit : d.isDigit = false := by
    rcases hd with rfl | rfl <;> decide
  have hdnotdot : d ≠ '.' := by
    rcases hd with rfl | rfl <;> decide
  cases v with
  | str s =>
    have hcs : renderLit (.str s) ++ d :: rest =
        '"' :: (s.data ++ '"' :: d :: rest) := by
      simp [renderLit]
    rw [hcs]
    unfold jparseGo
    rw [skipWs_cons_not _ (by decide)]
    simp only [jparseString]
    rw [jparseStringAux_append s.data [] (d :: rest)
      (fun c hc => ⟨(hv.1 c hc).1, (hv.1 c hc).2.1, (hv.1 c hc).2.2.2.2⟩)]
    simp [stringMk_data, litToJVal]
  | num neg ids fds =>
    obtain ⟨hne, hdig, hzero, hfdig⟩ := hv
    cases neg with
    | true =>
      have hcs : renderLit (.num true ids fds) ++ d :: rest =
          '-' :: (ids ++ (if fds.isEmpty then [] else '.' :: fds) ++ d :: rest) := by
        simp [renderLit]
      rw [hcs]
      unfold jparseGo
      rw [skipWs_cons_not _ (by decide)]
      show jparseNumber ('-' :: (ids ++ (if fds.isEmpty then [] else '.' :: fds)
          ++ d :: rest)) = _
      rw [show jparseNumber ('-' :: (ids ++ (if fds.isEmpty then [] else '.' :: fds)
          ++ d :: rest)) = jparseNumAbs true (ids ++ (if fds.isEmpty then [] else '.' :: fds)
          ++ d :: rest) from rfl]
      rw [jparseNumAbs_render true ids fds d rest ⟨hne, hdig, hzero, hfdig⟩
        hdnotdigit hdnotdot]
      rfl
    | false =>
      cases ids with
      | nil => exact absurd rfl hne
      | cons i is =>
        have hi : i.isDigit = true := hdig i (List.mem_cons_self _ _)
        have hcs : renderLit (.num false (i :: is) fds) ++ d :: rest =
            i :: ((is ++ (if fds.isEmpty then [] else '.' :: fds)) ++ d :: rest) := by
          simp [renderLit]
        rw [hcs]
        rw [jparseGo_top_digit fuel i _ hi]
        rw [jparseNumber_not_minus i _ (digit_ne_minus hi)]
        rw [show i :: ((is ++ (if fds.isEmpty then [] else '.' :: fds)) ++ d :: rest)
            = (i :: is) ++ (if fds.isEmpty then [] else '.' :: fds) ++ d :: rest from by
          simp]
        rw [jparseNumAbs_render false (i :: is) fds d rest ⟨hne, hdig, hzero, hfdig⟩
          hdnotdigit hdnotdot]
        rfl

/-- The object-member loop parses a rendered nonempty member list up to
the closing brace. -/
theorem jparseGo_objFields_render (flds : List (String × CardLit)) :
    ∀ fuel acc rest, (∀ p ∈ flds, goodKey p.1 ∧ goodLit p.2) → flds ≠ [] →
      2 * flds.length ≤ fuel →
      jparseGo fuel (.objFields acc) (renderFields flds ++ '\x7d' :: rest) =
        some (.obj (acc ++ flds.map (fun p => (p.1, litToJVal p.2))), rest) := by
  induction flds with
  | nil => intro fuel acc rest _ hne _; exact absurd rfl hne
  | cons kv tail ih =>
    intro fuel acc rest hgood _ hfuel
    obtain ⟨k, v⟩ := kv
    have hkv := hgood (k, v) (List.mem_cons_self _ _)
    have hkey : ∀ c ∈ k.data, c ≠ '"' ∧ c ≠ '\\' ∧ 32 ≤ c.toNat := by
      intro c hc
      have h2 := isWordChar_props (hkv.1.2 c hc)
      exact ⟨h2.1, h2.2.1, h2.2.2.2.2⟩
    cases fuel with
    | zero => simp at hfuel
    | succ f =>
      have hf1 : 1 ≤ f := by
        simp only [List.length_cons] at hfuel
        omega
      obtain ⟨g, rfl⟩ : ∃ g, f = g + 1 := ⟨f - 1, by omega⟩
      cases tail with
      | nil =>
        have hcs : renderFields [(k, v)] ++ '\x7d' :: rest =
            '"' :: (k.data ++ '"' :: (':' :: (renderLit v ++ '\x7d' :: rest))) := by
          simp [renderFields]
        rw [hcs]
        unfold jparseGo
        rw [skipWs_cons_not _ (by decide)]
        simp only [jparseString]
        rw [jparseStringAux_append k.data [] (':' :: (renderLit v ++ '\x7d' :: rest)) hkey]
        simp only [List.reverse_nil, List.nil_append, stringMk_data]
        rw [skipWs_cons_not _ (by decide)]
        simp only []
        rw [jparseGo_top_renderLit v hkv.2 '\x7d' rest (Or.inr rfl) g]
        simp only []
        rw [skipWs_cons_not _ (by decide)]
        simp
      | cons p ptail =>
        have hcs : renderFields ((k, v) :: p :: ptail) ++ '\x7d' :: rest =
            '"' :: (k.data ++ '"' :: (':' :: (renderLit v ++ ',' ::
              (renderFields (p :: ptail) ++ '\x7d' :: rest)))) := by
          simp [renderFields]
        rw [hcs]
        unfold jparseGo
        rw [skipWs_cons_not _ (by decide)]
        simp only [jparseString]
        rw [jparseStringAux_append k.data []
          (':' :: (renderLit v ++ ',' :: (renderFields (p :: ptail) ++ '\x7d' :: rest))) hkey]
        simp only [List.reverse_nil, List.nil_append, stringMk_data]
        rw [skipWs_cons_not _ (by decide)]
        simp only []
        rw [jparseGo_top_renderLit v hkv.2 ','
          (renderFields (p :: ptail) ++ '\x7d' :: rest) (Or.inl rfl) g]
        simp only []
        rw [skipWs_cons_not _ (by decide)]
        simp only []
        rw [ih (g + 1) (acc ++ [(k, litToJVal v)]) rest
          (fun q hq => hgood q (List.mem_cons_of_mem _ hq)) (by simp)
          (by simp only [List.length_cons] at hfuel ⊢; omega)]
        simp

/-- The rendered member list is at least as long as the member count. -/
theorem renderFields_length_ge (flds : List (String × CardLit)) :
    flds.length ≤ (renderFields flds).length := by
  induction flds with
  | nil => simp [renderFields]
  | cons kv tail ih =>
    obtain ⟨k, v⟩ := kv
    cases tail with
    | nil => simp [renderFields]
    | cons p ptail =>
      simp only [renderFields, List.length_cons, List.length_append]
      simp only [List.length_cons] at ih
      omega

/-- JSON.parse inverts the strict rendering of a nonempty plain
object. -/
theorem jsonParse_renderObjLit (flds : List (String × CardLit))
    (hgood : ∀ p ∈ flds, goodKey p.1 ∧ goodLit p.2) (hne : flds ≠ []) :
    jsonParse (String.mk (renderObjLit flds)) = some (fieldsToJVal flds) := by
  unfold jsonParse
  have hdata : (String.mk (renderObjLit flds)).data = renderObjLit flds := rfl
  rw [hdata]
  obtain ⟨m, hm⟩ : ∃ m, 2 * (renderObjLit flds).length + 2 = m + 1 :=
    ⟨2 * (renderObjLit flds).length + 1, rfl⟩
  rw [hm]
  unfold jparseVal
  have hshape : renderObjLit flds = '\x7b' :: (renderFields flds ++ '\x7d' :: []) := by
    simp [renderObjLit]
  rw [hshape]
  unfold jparseGo
  rw [skipWs_cons_not _ (by decide)]
  simp only []
  rw [jparseGo_objFields_render flds m [] [] hgood hne (by
    have h1 := renderFields_length_ge flds
    simp only [hshape, List.length_cons, List.length_append, List.length_singleton] at hm
    omega)]
  simp [fieldsToJVal, skipWs]

/-! ## C4: the card round-trip

The spec claims the round-trip for every closed tag of the data model,
including image_verification_result.  The card regex of the code (line
368) only matches the six-word alternation restaurant, food_item,
product, order_details, refund_status, cart, so a rendered card of any
other tag is left as prose.  For the six code tags, rendering a plain
well-formed payload and decoding it yields exactly one card with the
strictly parsed object. -/

/-- The takeWhile scan stops at a head that fails the predicate. -/
theorem takeWhile_head_false {p : Char → Bool} {c : Char} (l : List Char)
    (h : p c = false) : (c :: l).takeWhile p = [] := by
  simp [List.takeWhile_cons, h]

/-- The findSome? scan skips a head on which the function is none. -/
theorem findSome?_cons_none {α β : Type} (f : α → Option β) (a : α) (l : List α)
    (h : f a = none) : (a :: l).findSome? f = l.findSome? f := by
  simp [List.findSome?_cons, h]

/-- The findSome? scan stops at a head on which the function is
some. -/
theorem findSome?_cons_some {α β : Type} (f : α → Option β) (a : α) (l : List α)
    {b : β} (h : f a = some b) : (a :: l).findSome? f = some b := by
  simp [List.findSome?_cons, h]

/-- The card-tail matcher on a rendered payload followed by the closing
colons: it captures the whole brace block and consumes it plus three
colons. -/
theorem matchCardTail_render (flds : List (String × CardLit)) (fuel : Nat)
    (hgood : ∀ p ∈ flds, goodKey p.1 ∧ goodLit p.2)
    (hfuel : (renderFields flds).length < fuel) :
    matchCardTail fuel (renderObjLit flds ++ (":::").data) =
      some (renderObjLit flds, (renderFields flds).length + 5) := by
  have hshape : renderObjLit flds ++ (":::").data =
      '\x7b' :: (renderFields flds ++ '\x7d' :: (":::").data) := by
    simp [renderObjLit]
  rw [hshape]
  unfold matchCardTail
  rw [takeWhile_head_false _ (by rfl)]
  simp only [List.length_nil, List.drop_zero]
  unfold braceTop
  simp only []
  rw [braceStar1_content (renderFields flds) fuel ((":::").data) hfuel
    (renderFields_no_brace hgood)]
  simp only []
  rw [show ((":::").data.takeWhile jsWs) = [] from rfl]
  simp only [List.length_nil, List.drop_zero]
  rw [show matchCloser ((":::").data) = some 3 from rfl]
  simp only [Option.some.injEq, Prod.mk.injEq]
  refine ⟨rfl, ?_⟩
  simp only [renderObjLit, List.length_cons, List.length_append, List.length_nil]
  omega

/-- The staged body parser on a rendered well-formed payload succeeds
at the first stage, the strict JSON parse. -/
theorem parseCardBody_render (flds : List (String × CardLit))
    (hgood : ∀ p ∈ flds, goodKey p.1 ∧ goodLit p.2) (hne : flds ≠ []) :
    parseCardBody (renderObjLit flds) = fieldsToJVal flds := by
  unfold parseCardBody
  rw [jsonParse_renderObjLit flds hgood hne]

/-- The array-coercion pass leaves the decoded plain payload unchanged:
no well-formed string value looks like an array literal. -/
theorem coerceArrayStrings_fields (flds : List (String × CardLit))
    (hgood : ∀ p ∈ flds, goodKey p.1 ∧ goodLit p.2) :
    coerceArrayStrings (fieldsToJVal flds) = fieldsToJVal flds := by
  unfold coerceArrayStrings fieldsToJVal
  simp only []
  rw [List.map_map]
  congr 1
  apply List.map_congr_left
  intro p hp
  have hg := (hgood p hp).2
  obtain ⟨k, v⟩ := p
  cases v with
  | str s =>
    have hgs : goodStrVal s := hg
    simp only [Function.comp, litToJVal]
    rw [hgs.2]
    simp [litToJVal]
  | num neg i f =>
    simp only [Function.comp, litToJVal]

/-- Dropping the opening colon run and the type word lands right on the
brace block. -/
theorem drop_colon3_word (w X : List Char) :
    ((':' :: ':' :: ':' :: (w ++ X)).drop (3 + w.length)) = X := by
  have h : 3 + w.length = w.length + 1 + 1 + 1 := by omega
  rw [h, List.drop_succ_cons, List.drop_succ_cons, List.drop_succ_cons, List.drop_left]

/-- The colon-run card attempt with run three on a rendered card: the
type word is found in the alternation and the tail matches. -/
theorem matchCardColon_render (w : List Char) (flds : List (String × CardLit)) (fuel : Nat)
    (hw : w ∈ cardTypeWords)
    (hgood : ∀ p ∈ flds, goodKey p.1 ∧ goodLit p.2)
    (hfuel : (renderFields flds).length < fuel) :
    matchCardColon fuel
      (':' :: ':' :: ':' :: (w ++ (renderObjLit flds ++ (":::").data))) 3 =
      some (String.mk w, renderObjLit flds,
        3 + w.length + ((renderFields flds).length + 5)) := by
  have hmct := matchCardTail_render flds fuel hgood hfuel
  simp only [cardTypeWords, List.mem_cons, List.not_mem_nil, or_false] at hw
  rcases hw with rfl | rfl | rfl | rfl | rfl | rfl
  all_goals
    unfold matchCardColon cardTypeWords
    repeat rw [findSome?_cons_none _ _ _ rfl]
    rw [List.findSome?_cons]
    rw [drop_colon3_word]
    rw [hmct]
    rfl

/-- The full card matcher on a text whose colon run is exactly three:
greedy backtracking settles on the run-three alternative. -/
theorem matchCardAt_of_colon3 (fuel : Nat) (cs : List Char) (v : String × List Char × Nat)
    (hcrun : (cs.takeWhile (fun c => c = ':')).length = 3)
    (hcol : matchCardColon fuel cs 3 = some v) :
    matchCardAt fuel cs = some v := by
  unfold matchCardAt
  simp only [hcrun]
  rw [show ((List.range 4).map (fun i => 5 - i)) = [5, 4, 3, 2] from rfl]
  rw [findSome?_cons_none (fun c => if c ≤ 3 then matchCardColon fuel cs c else none)
    5 [4, 3, 2] (by simp)]
  rw [findSome?_cons_none (fun c => if c ≤ 3 then matchCardColon fuel cs c else none)
    4 [3, 2] (by simp)]
  rw [findSome?_cons_some (fun c => if c ≤ 3 then matchCardColon fuel cs c else none)
    3 [2] (by simpa using hcol)]

/-- The global scan on a text that is one whole card match yields that
single match. -/
theorem scanCards_single (c0 : Char) (cs0 : List Char) (t : String) (body : List Char)
    (hat : matchCardAt ((c0 :: cs0).length + 1) (c0 :: cs0) =
      some (t, body, (c0 :: cs0).length)) :
    scanCards ((c0 :: cs0).length + 1) (c0 :: cs0) 0 =
      [(0, t, body, (c0 :: cs0).length)] := by
  rw [scanCards]
  rw [hat]
  simp only []
  rw [List.drop_length]
  rw [show ((c0 :: cs0).length : Nat) = cs0.length + 1 from by simp]
  rw [scanCards]

/-- Assembling a single whole-text match whose body decodes to a truthy
nonempty object yields exactly one card part and no prose. -/
theorem assembleParts_card (cs : List Char) (t : String) (body : List Char) (v : JVal)
    (hb : coerceArrayStrings (parseCardBody body) = v)
    (htr : v.truthy = true) (hk : hasKeys v = true) :
    assembleParts cs 0 [(0, t, body, cs.length)] = [MsgPart.card t v] := by
  simp [assembleParts, hb, htr, hk]

/-- The sample payload is well formed. -/
theorem sampleCardFields_good : goodFields sampleCardFields := by
  refine ⟨by simp [sampleCardFields], by decide, ?_⟩
  intro p hp
  simp only [sampleCardFields, List.mem_cons, List.not_mem_nil, or_false] at hp
  rcases hp with rfl | rfl
  · exact ⟨⟨by decide, by decide⟩, ⟨by decide, by decide⟩⟩
  · exact ⟨⟨by decide, by decide⟩, by decide, by decide, by decide, by decide⟩

/-- C4 (counterexample): image_verification_result is a closed tag of
the data model per the spec, but rendering a payload under it and
decoding yields a single prose text part, not a card: the card regex
only knows the six-word alternation. -/
theorem card_rendering_spec_tag_not_decoded :
    parseMessageWithCards
        (renderCard "image_verification_result"
          [("verification_score", CardLit.num false ['9', '5'] [])]) =
      [MsgPart.text
        ":::image_verification_result\x7b\x22verification_score\x22:95\x7d:::"] := by
  rfl

/-- C4 (amended): for every type tag of the card regex alternation and
every plain well-formed key-value payload, rendering the card as three
colons, the tag, the strict JSON of the payload and three colons, and
decoding that text, yields exactly one card part whose type is the tag
and whose data is the strictly parsed object, with no surrounding
prose. -/
theorem cards_roundtrip_code_tags (t : String) (flds : List (String × CardLit))
    (ht : t ∈ ["restaurant", "food_item", "product", "order_details", "refund_status", "cart"])
    (hf : goodFields flds) :
    parseMessageWithCards (renderCard t flds) = [MsgPart.card t (fieldsToJVal flds)] := by
  obtain ⟨hne, hnd, hgood⟩ := hf
  have hmkdata : ∀ L : List Char, (String.mk L).data = L := fun L => rfl
  have hcolons : ∀ Y : List Char, (":::").data ++ Y = ':' :: ':' :: ':' :: Y := fun Y => rfl
  have hdata : (renderCard t flds).data =
      ':' :: ':' :: ':' :: (t.data ++ (renderObjLit flds ++ (":::").data)) := by
    rw [renderCard, hmkdata, List.append_assoc, List.append_assoc, hcolons]
  have h3 : ((":::").data).length = 3 := rfl
  have hlen : (':' :: ':' :: ':' :: (t.data ++ (renderObjLit flds ++ (":::").data))).length =
      (renderFields flds).length + t.data.length + 8 := by
    simp [renderObjLit, List.length_append, List.length_cons, h3]
    omega
  have hw : t.data ∈ cardTypeWords ∧
      ((':' :: ':' :: ':' :: (t.data ++ (renderObjLit flds ++ (":::").data))).takeWhile
        (fun c => c = ':')).length = 3 := by
    simp only [List.mem_cons, List.not_mem_nil, or_false] at ht
    rcases ht with rfl | rfl | rfl | rfl | rfl | rfl <;> exact ⟨by decide, rfl⟩
  have hcol := matchCardColon_render t.data flds
    ((':' :: ':' :: ':' :: (t.data ++ (renderObjLit flds ++ (":::").data))).length + 1)
    hw.1 hgood (by omega)
  have hat : matchCardAt
      ((':' :: ':' :: ':' :: (t.data ++ (renderObjLit flds ++ (":::").data))).length + 1)
      (':' :: ':' :: ':' :: (t.data ++ (renderObjLit flds ++ (":::").data))) =
      some (t, renderObjLit flds,
        (':' :: ':' :: ':' :: (t.data ++ (renderObjLit flds ++ (":::").data))).length) := by
    apply matchCardAt_of_colon3 _ _ _ hw.2
    have harith : 3 + t.data.length + ((renderFields flds).length + 5) =
        (':' :: ':' :: ':' :: (t.data ++ (renderObjLit flds ++ (":::").data))).length := by
      rw [hlen]
      omega
    rw [hcol, stringMk_data t, harith]
  have hbody : coerceArrayStrings (parseCardBody (renderObjLit flds)) = fieldsToJVal flds := by
    rw [parseCardBody_render flds hgood hne, coerceArrayStrings_fields flds hgood]
  have hk : hasKeys (fieldsToJVal flds) = true := by
    cases flds with
    | nil => exact absurd rfl hne
    | cons a l => rfl
  unfold parseMessageWithCards
  rw [if_neg (by
    intro h
    have h2 := congrArg String.data h
    rw [hdata] at h2
    rw [show ("" : String).data = [] from rfl] at h2
    simp at h2)]
  rw [hdata]
  rw [scanCards_single _ _ _ _ hat]
  rw [assembleParts_card _ _ _ _ hbody rfl hk]

/-- C4 (witness): the amended round-trip at the restaurant tag and the
sample payload. -/
theorem cards_roundtrip_code_tags_witness :
    "restaurant" ∈
        ["restaurant", "food_item", "product", "order_details", "refund_status", "cart"] ∧
      goodFields sampleCardFields ∧
      parseMessageWithCards (renderCard "restaurant" sampleCardFields) =
        [MsgPart.card "restaurant" (fieldsToJVal sampleCardFields)] :=
  ⟨by simp, sampleCardFields_good,
    cards_roundtrip_code_tags "restaurant" sampleCardFields (by simp) sampleCardFields_good⟩
